import Mathlib

/-!
# Verification of the bolt.diy deployment pipeline and streaming parser

A shallow embedding, in Lean 4, of the core algorithms of the repository:

* the in-memory USTAR tar archiver of `app/routes/api.deploy-docker.ts`
  (`createTarHeader`, `handlePackage`),
* the Fly.io deploy stream of the same file (`handleFlyDeploy`),
* the one-click deploy app-name selection of the `DeployButton` component
  (`handleOneClickDeploy`),
* the analytics tracker injection of `handleFlyDeploy`,
* the project detector of `DockerDeploy.client.tsx` (`detectProject`),
* and a model, taken from the specification, of the streaming message
  parser (whose implementation file is not part of the source tree).

Byte buffers (`Uint8Array`) are embedded as `List Nat`; strings handed to
`TextEncoder.encode` appear as their byte lists at the embedding boundary.
-/

set_option maxRecDepth 10000

namespace BoltDiy

/-- Embedding of `Uint8Array.prototype.set(bs, off)` on a byte buffer `a`:
overwrite `bs.length` bytes starting at `off`.  Faithful to the source as
long as `off + bs.length ≤ a.length` (the source never writes out of
bounds; JavaScript would throw a `RangeError` there). -/
def setBytes (a : List Nat) (off : Nat) (bs : List Nat) : List Nat :=
  a.take off ++ bs ++ a.drop (off + bs.length)

/-- Byte list of an ASCII string, as `TextEncoder.encode` produces for
ASCII input. -/
def strBytes (s : String) : List Nat :=
  s.toList.map Char.toNat

/-- Digit loop for `natToOctal`, structured over an explicit fuel
counter (`n` itself suffices) so that the definition reduces
computationally. -/
def natToOctalGo (fuel n : Nat) : List Nat :=
  match fuel with
  | 0 => [48 + n]
  | fuel + 1 =>
    if n < 8 then [48 + n] else natToOctalGo fuel (n / 8) ++ [48 + n % 8]

/-- Digits of `n` written in base 8 as ASCII bytes — embedding of the
JavaScript `n.toString(8)`. -/
def natToOctal (n : Nat) : List Nat :=
  natToOctalGo n n

theorem natToOctalGo_fuel (fuel fuel' n : Nat) (h : n ≤ fuel)
    (h' : n ≤ fuel') : natToOctalGo fuel n = natToOctalGo fuel' n := by
  induction fuel generalizing fuel' n with
  | zero =>
    have : n = 0 := by omega
    subst this
    cases fuel' with
    | zero => rfl
    | succ f => simp [natToOctalGo]
  | succ f ih =>
    cases fuel' with
    | zero =>
      have : n = 0 := by omega
      subst this
      simp [natToOctalGo]
    | succ g =>
      simp only [natToOctalGo]
      split
      · rfl
      · rename_i hn
        rw [ih g (n / 8) (by omega) (by omega)]

/-- The defining recurrence of `natToOctal`, matching `n.toString(8)`. -/
theorem natToOctal_eq (n : Nat) :
    natToOctal n = if n < 8 then [48 + n]
      else natToOctal (n / 8) ++ [48 + n % 8] := by
  unfold natToOctal
  cases n with
  | zero => simp [natToOctalGo]
  | succ m =>
    simp only [natToOctalGo]
    split
    · rfl
    · rename_i hn
      rw [natToOctalGo_fuel m ((m + 1) / 8) ((m + 1) / 8) (by omega)
        (le_refl _)]

/-- `ds.padStart(w, '0')` on a digit byte string (no-op when `ds` is
already at least `w` bytes long, exactly as in JavaScript). -/
def padStart (w : Nat) (ds : List Nat) : List Nat :=
  List.replicate (w - ds.length) 48 ++ ds

theorem setBytes_length (a bs : List Nat) (off : Nat)
    (h : off + bs.length ≤ a.length) :
    (setBytes a off bs).length = a.length := by
  simp only [setBytes, List.length_append, List.length_take, List.length_drop]
  omega

/-- Writing at the frontier of a zero-tailed buffer. -/
theorem setBytes_concrete (x : List Nat) (k off : Nat) (bs : List Nat)
    (hx : x.length = off) (_h : bs.length ≤ k) :
    setBytes (x ++ List.replicate k 0) off bs =
      x ++ bs ++ List.replicate (k - bs.length) 0 := by
  subst hx
  simp only [setBytes]
  rw [show x.length + bs.length = x.length + bs.length from rfl,
    List.drop_append, List.drop_replicate]
  rw [show x.length = x.length + 0 from rfl, List.take_append]
  simp

/-- Overwriting a middle segment of an exactly decomposed buffer. -/
theorem setBytes_mid (x b y c : List Nat) (off : Nat)
    (hx : x.length = off) (hb : c.length = b.length) :
    setBytes (x ++ b ++ y) off c = x ++ c ++ y := by
  subst hx
  simp only [setBytes, List.append_assoc]
  rw [List.take_left, hb, List.drop_append, List.drop_left]

theorem natToOctal_ne_nil (n : Nat) : natToOctal n ≠ [] := by
  rw [natToOctal_eq]
  split <;> simp

theorem natToOctal_length_le (k n : Nat) (hk : 1 ≤ k) (h : n < 8 ^ k) :
    (natToOctal n).length ≤ k := by
  induction k generalizing n with
  | zero => omega
  | succ k ih =>
    rw [natToOctal_eq]
    split
    · simp
    · rename_i hn
      have hk1 : 1 ≤ k := by
        by_contra hc
        have : k = 0 := by omega
        subst this
        simp at h
        omega
      have : n / 8 < 8 ^ k := by
        rw [Nat.div_lt_iff_lt_mul (by norm_num)]
        calc n < 8 ^ (k + 1) := h
          _ = 8 ^ k * 8 := by ring
      have := ih (n / 8) hk1 this
      simp only [List.length_append, List.length_cons, List.length_nil]
      omega

theorem natToOctal_mem_bounds (n : Nat) :
    ∀ b ∈ natToOctal n, 48 ≤ b ∧ b ≤ 55 := by
  induction n using Nat.strong_induction_on with
  | _ n ih =>
    rw [natToOctal_eq]
    split
    · rename_i h
      intro b hb
      simp at hb
      omega
    · rename_i h
      intro b hb
      simp only [List.mem_append, List.mem_singleton] at hb
      rcases hb with hb | hb
      · exact ih (n / 8) (Nat.div_lt_self (by omega) (by omega)) b hb
      · subst hb
        have := Nat.mod_lt n (y := 8) (by omega)
        omega

theorem padStart_length (w : Nat) (ds : List Nat) (h : ds.length ≤ w) :
    (padStart w ds).length = w := by
  simp only [padStart, List.length_append, List.length_replicate]
  omega

theorem padStart_mem_bounds (w : Nat) (ds : List Nat)
    (h : ∀ b ∈ ds, 48 ≤ b ∧ b ≤ 55) :
    ∀ b ∈ padStart w ds, 48 ≤ b ∧ b ≤ 55 := by
  intro b hb
  simp only [padStart, List.mem_append, List.mem_replicate] at hb
  rcases hb with hb | hb
  · omega
  · exact h b hb

/-- Reading an octal digit byte string, most significant digit first (how
a tar extractor reads the size field). -/
def readOctalBytes (bs : List Nat) : Nat :=
  bs.foldl (fun acc b => acc * 8 + (b - 48)) 0

theorem readOctalBytes_go (acc : Nat) (bs : List Nat) :
    bs.foldl (fun acc b => acc * 8 + (b - 48)) acc =
      acc * 8 ^ bs.length + readOctalBytes bs := by
  induction bs generalizing acc with
  | nil => simp [readOctalBytes]
  | cons b bs ih =>
    simp only [List.foldl_cons, readOctalBytes] at *
    rw [ih (acc * 8 + (b - 48)), ih (0 * 8 + (b - 48))]
    simp only [List.length_cons]
    ring

theorem readOctalBytes_natToOctal (n : Nat) :
    readOctalBytes (natToOctal n) = n := by
  induction n using Nat.strong_induction_on with
  | _ n ih =>
    rw [natToOctal_eq]
    split
    · rename_i h
      simp [readOctalBytes]
    · rename_i h
      have hd := ih (n / 8) (Nat.div_lt_self (by omega) (by omega))
      simp only [readOctalBytes, List.foldl_append, List.foldl_cons,
        List.foldl_nil]
      rw [readOctalBytes] at hd
      rw [hd]
      have := Nat.div_add_mod n 8
      omega

theorem readOctalBytes_padStart (w : Nat) (n : Nat) :
    readOctalBytes (padStart w (natToOctal n)) = n := by
  simp only [padStart, readOctalBytes, List.foldl_append]
  have hz : ∀ (k : Nat), (List.replicate k 48).foldl
      (fun acc b => acc * 8 + (b - 48)) 0 = 0 := by
    intro k
    induction k with
    | zero => simp
    | succ k ih => simpa [List.replicate_succ] using ih
  rw [hz]
  exact readOctalBytes_natToOctal n

/-! ## The USTAR tar archiver (`api.deploy-docker.ts`) -/

/-- Embedding of `createTarHeader(fileName, fileSize)`; the file name
arrives as its UTF-8 bytes (`encoder.encode(fileName)`) and the wall
clock second count `Math.floor(Date.now() / 1000)` is an explicit
`mtime` parameter.  The final checksum loop `for i in 0..511` is the sum
of the first 512 bytes of the buffer. -/
def createTarHeader (nameBytes : List Nat) (fileSize : Nat) (mtime : Nat) :
    List Nat :=
  let header := List.replicate 512 0
  let header := setBytes header 0 (nameBytes.take 100)
  let header := setBytes header 100 (strBytes "0000644\x00")
  let header := setBytes header 108 (strBytes "0001000\x00")
  let header := setBytes header 116 (strBytes "0001000\x00")
  let header := setBytes header 124 (padStart 11 (natToOctal fileSize) ++ [0])
  let header := setBytes header 136 (padStart 11 (natToOctal mtime) ++ [0])
  let header := setBytes header 148 (strBytes "        ")
  let header := setBytes header 156 [0x30]
  let header := setBytes header 257 (strBytes "ustar\x00")
  let header := setBytes header 263 (strBytes "00")
  let checksum := (header.take 512).sum
  setBytes header 148 (padStart 6 (natToOctal checksum) ++ [0, 32])

/-- The name field: the (truncated) name zero-padded to 100 bytes. -/
def nameField (nb : List Nat) : List Nat :=
  nb.take 100 ++ List.replicate (100 - (nb.take 100).length) 0

/-- The fixed bytes of the header from the type flag (offset 156) to the
end: type flag `'0'`, the unused 100-byte link-name area, the USTAR magic
and version, and the zero tail covering (among others) the USTAR `prefix`
field at offset 345. -/
def headerBack : List Nat :=
  [0x30] ++ List.replicate 100 0 ++ strBytes "ustar\x00" ++ strBytes "00" ++
    List.replicate 247 0

/-- Bytes 0–147 of the header: name, mode, uid, gid, size, mtime. -/
def headerFront (nb : List Nat) (fileSize mtime : Nat) : List Nat :=
  nameField nb ++ strBytes "0000644\x00" ++ strBytes "0001000\x00" ++
    strBytes "0001000\x00" ++ (padStart 11 (natToOctal fileSize) ++ [0]) ++
    (padStart 11 (natToOctal mtime) ++ [0])

/-- The header as summed by the checksum pass: checksum field is the
eight ASCII spaces it was initialised with. -/
def headerPre (nb : List Nat) (fileSize mtime : Nat) : List Nat :=
  headerFront nb fileSize mtime ++ strBytes "        " ++ headerBack

/-- The checksum the source stores: sum of all 512 bytes with the
checksum field space-filled. -/
def tarChecksum (nb : List Nat) (fileSize mtime : Nat) : Nat :=
  (headerPre nb fileSize mtime).sum

theorem nameField_length (nb : List Nat) : (nameField nb).length = 100 := by
  simp only [nameField, List.length_append, List.length_take,
    List.length_replicate]
  omega

theorem strBytes_mode_length : (strBytes "0000644\x00").length = 8 := rfl

theorem headerFront_length (nb : List Nat) (fileSize mtime : Nat)
    (hsz : fileSize < 8 ^ 11) (hmt : mtime < 8 ^ 11) :
    (headerFront nb fileSize mtime).length = 148 := by
  have h1 := padStart_length 11 (natToOctal fileSize)
    (natToOctal_length_le 11 fileSize (by omega) hsz)
  have h2 := padStart_length 11 (natToOctal mtime)
    (natToOctal_length_le 11 mtime (by omega) hmt)
  simp only [headerFront, List.length_append, nameField_length, h1, h2]
  rfl

theorem headerBack_length : headerBack.length = 356 := by
  simp only [headerBack, List.length_append, List.length_replicate,
    List.length_cons, List.length_nil]
  rfl

theorem headerPre_length (nb : List Nat) (fileSize mtime : Nat)
    (hsz : fileSize < 8 ^ 11) (hmt : mtime < 8 ^ 11) :
    (headerPre nb fileSize mtime).length = 512 := by
  simp only [headerPre, List.length_append,
    headerFront_length nb fileSize mtime hsz hmt, headerBack_length]
  rfl

theorem headerPre_mem_le (nb : List Nat) (fileSize mtime : Nat)
    (hnb : ∀ b ∈ nb, b ≤ 255) :
    ∀ b ∈ headerPre nb fileSize mtime, b ≤ 255 := by
  have hoct : ∀ (m : Nat), ∀ b ∈ padStart 11 (natToOctal m) ++ [0], b ≤ 255 := by
    intro m b hb
    rcases List.mem_append.mp hb with h | h
    · have := padStart_mem_bounds 11 _ (natToOctal_mem_bounds m) b h
      omega
    · simp only [List.mem_singleton] at h
      omega
  intro b hb
  simp only [headerPre, headerFront, headerBack, List.append_assoc,
    List.mem_append] at hb
  rcases hb with h | h | h | h | h | h | h | h | h | h | h | h | h | h
  · rcases List.mem_append.mp h with h1 | h1
    · exact hnb b (List.mem_of_mem_take h1)
    · rw [List.eq_of_mem_replicate h1]
      omega
  · have hs : ∀ x ∈ strBytes "0000644\x00", x ≤ 255 := by decide
    exact hs b h
  · have hs : ∀ x ∈ strBytes "0001000\x00", x ≤ 255 := by decide
    exact hs b h
  · have hs : ∀ x ∈ strBytes "0001000\x00", x ≤ 255 := by decide
    exact hs b h
  · exact hoct fileSize b (List.mem_append.mpr (Or.inl h))
  · simp only [List.mem_singleton] at h
    omega
  · exact hoct mtime b (List.mem_append.mpr (Or.inl h))
  · simp only [List.mem_singleton] at h
    omega
  · have hs : ∀ x ∈ strBytes "        ", x ≤ 255 := by decide
    exact hs b h
  · simp only [List.mem_singleton] at h
    omega
  · rw [List.eq_of_mem_replicate h]
    omega
  · have hs : ∀ x ∈ strBytes "ustar\x00", x ≤ 255 := by decide
    exact hs b h
  · have hs : ∀ x ∈ strBytes "00", x ≤ 255 := by decide
    exact hs b h
  · rw [List.eq_of_mem_replicate h]
    omega

theorem strBytes_owner_length : (strBytes "0001000\x00").length = 8 := rfl

theorem strBytes_spaces_length : (strBytes "        ").length = 8 := rfl

theorem strBytes_magic_length : (strBytes "ustar\x00").length = 6 := rfl

theorem strBytes_version_length : (strBytes "00").length = 2 := rfl

/-- One write at the frontier of the partially built header, with the
remaining zero tail stated explicitly. -/
theorem setBytes_step (x : List Nat) (k off : Nat) (bs : List Nat) (k' : Nat)
    (hx : x.length = off) (hk : k' = k - bs.length) (h : bs.length ≤ k) :
    setBytes (x ++ List.replicate k 0) off bs =
      (x ++ bs) ++ List.replicate k' 0 := by
  rw [setBytes_concrete x k off bs hx h, hk]

theorem tarChecksum_lt (nb : List Nat) (fileSize mtime : Nat)
    (hnb : ∀ b ∈ nb, b ≤ 255)
    (hsz : fileSize < 8 ^ 11) (hmt : mtime < 8 ^ 11) :
    tarChecksum nb fileSize mtime < 8 ^ 6 := by
  have hsum := List.sum_le_card_nsmul (headerPre nb fileSize mtime) 255
    (headerPre_mem_le nb fileSize mtime hnb)
  rw [headerPre_length nb fileSize mtime hsz hmt] at hsum
  simp only [smul_eq_mul] at hsum
  calc tarChecksum nb fileSize mtime ≤ 512 * 255 := hsum
    _ < 8 ^ 6 := by norm_num

/-- Normal form of the imperative header construction: the 512-byte
buffer decomposes into the documented fields, with the checksum written
over the space-filled field in a final pass. -/
theorem createTarHeader_eq (nb : List Nat) (fileSize mtime : Nat)
    (hnb : ∀ b ∈ nb, b ≤ 255)
    (hsz : fileSize < 8 ^ 11) (hmt : mtime < 8 ^ 11) :
    createTarHeader nb fileSize mtime =
      headerFront nb fileSize mtime ++
        (padStart 6 (natToOctal (tarChecksum nb fileSize mtime)) ++ [0, 32]) ++
        headerBack := by
  have hp1 : (padStart 11 (natToOctal fileSize)).length = 11 :=
    padStart_length 11 _ (natToOctal_length_le 11 fileSize (by omega) hsz)
  have hp2 : (padStart 11 (natToOctal mtime)).length = 11 :=
    padStart_length 11 _ (natToOctal_length_le 11 mtime (by omega) hmt)
  have hszlen : (padStart 11 (natToOctal fileSize) ++ [0]).length = 12 := by
    simp [hp1]
  have hmtlen : (padStart 11 (natToOctal mtime) ++ [0]).length = 12 := by
    simp [hp2]
  have e1 : setBytes (List.replicate 512 0) 0 (nb.take 100) =
      nameField nb ++ List.replicate 412 0 := by
    have hl : (nb.take 100).length ≤ 100 := by
      simp
    simp only [setBytes, List.take_zero, List.nil_append, Nat.zero_add,
      List.drop_replicate, nameField, List.append_assoc]
    rw [← List.replicate_add]
    congr 2
    omega
  have e2 : setBytes (nameField nb ++ List.replicate 412 0) 100
      (strBytes "0000644\x00") =
      (nameField nb ++ strBytes "0000644\x00") ++ List.replicate 404 0 :=
    setBytes_step _ 412 100 _ 404 (nameField_length nb)
      (by rw [strBytes_mode_length]) (by rw [strBytes_mode_length]; omega)
  have e3 : setBytes ((nameField nb ++ strBytes "0000644\x00") ++
      List.replicate 404 0) 108 (strBytes "0001000\x00") =
      ((nameField nb ++ strBytes "0000644\x00") ++ strBytes "0001000\x00") ++
        List.replicate 396 0 :=
    setBytes_step _ 404 108 _ 396
      (by simp only [List.length_append, nameField_length,
        strBytes_mode_length])
      (by rw [strBytes_owner_length]) (by rw [strBytes_owner_length]; omega)
  have e4 : setBytes (((nameField nb ++ strBytes "0000644\x00") ++
      strBytes "0001000\x00") ++ List.replicate 396 0) 116
      (strBytes "0001000\x00") =
      (((nameField nb ++ strBytes "0000644\x00") ++ strBytes "0001000\x00") ++
        strBytes "0001000\x00") ++ List.replicate 388 0 :=
    setBytes_step _ 396 116 _ 388
      (by simp only [List.length_append, nameField_length,
        strBytes_mode_length, strBytes_owner_length])
      (by rw [strBytes_owner_length]) (by rw [strBytes_owner_length]; omega)
  have e5 : setBytes ((((nameField nb ++ strBytes "0000644\x00") ++
      strBytes "0001000\x00") ++ strBytes "0001000\x00") ++
      List.replicate 388 0) 124 (padStart 11 (natToOctal fileSize) ++ [0]) =
      ((((nameField nb ++ strBytes "0000644\x00") ++ strBytes "0001000\x00") ++
        strBytes "0001000\x00") ++ (padStart 11 (natToOctal fileSize) ++ [0])) ++
        List.replicate 376 0 :=
    setBytes_step _ 388 124 _ 376
      (by simp only [List.length_append, nameField_length,
        strBytes_mode_length, strBytes_owner_length])
      (by rw [hszlen]) (by rw [hszlen]; omega)
  have e6 : setBytes (((((nameField nb ++ strBytes "0000644\x00") ++
      strBytes "0001000\x00") ++ strBytes "0001000\x00") ++
      (padStart 11 (natToOctal fileSize) ++ [0])) ++ List.replicate 376 0) 136
      (padStart 11 (natToOctal mtime) ++ [0]) =
      (((((nameField nb ++ strBytes "0000644\x00") ++ strBytes "0001000\x00") ++
        strBytes "0001000\x00") ++ (padStart 11 (natToOctal fileSize) ++ [0])) ++
        (padStart 11 (natToOctal mtime) ++ [0])) ++ List.replicate 364 0 :=
    setBytes_step _ 376 136 _ 364
      (by simp only [List.length_append, nameField_length,
        strBytes_mode_length, strBytes_owner_length, hszlen])
      (by rw [hmtlen]) (by rw [hmtlen]; omega)
  have e7 : setBytes ((((((nameField nb ++ strBytes "0000644\x00") ++
      strBytes "0001000\x00") ++ strBytes "0001000\x00") ++
      (padStart 11 (natToOctal fileSize) ++ [0])) ++
      (padStart 11 (natToOctal mtime) ++ [0])) ++ List.replicate 364 0) 148
      (strBytes "        ") =
      ((((((nameField nb ++ strBytes "0000644\x00") ++ strBytes "0001000\x00") ++
        strBytes "0001000\x00") ++ (padStart 11 (natToOctal fileSize) ++ [0])) ++
        (padStart 11 (natToOctal mtime) ++ [0])) ++ strBytes "        ") ++
        List.replicate 356 0 :=
    setBytes_step _ 364 148 _ 356
      (by simp only [List.length_append, nameField_length,
        strBytes_mode_length, strBytes_owner_length, hszlen, hmtlen])
      (by rw [strBytes_spaces_length]) (by rw [strBytes_spaces_length]; omega)
  have e8 : setBytes (((((((nameField nb ++ strBytes "0000644\x00") ++
      strBytes "0001000\x00") ++ strBytes "0001000\x00") ++
      (padStart 11 (natToOctal fileSize) ++ [0])) ++
      (padStart 11 (natToOctal mtime) ++ [0])) ++ strBytes "        ") ++
      List.replicate 356 0) 156 [0x30] =
      ((((((((nameField nb ++ strBytes "0000644\x00") ++
        strBytes "0001000\x00") ++ strBytes "0001000\x00") ++
        (padStart 11 (natToOctal fileSize) ++ [0])) ++
        (padStart 11 (natToOctal mtime) ++ [0])) ++ strBytes "        ") ++
        [0x30]) ++ List.replicate 100 0) ++ List.replicate 255 0 := by
    have h1 := setBytes_step ((((((nameField nb ++ strBytes "0000644\x00") ++
      strBytes "0001000\x00") ++ strBytes "0001000\x00") ++
      (padStart 11 (natToOctal fileSize) ++ [0])) ++
      (padStart 11 (natToOctal mtime) ++ [0])) ++ strBytes "        ")
      356 156 [0x30] 355
      (by simp only [List.length_append, nameField_length,
        strBytes_mode_length, strBytes_owner_length, hszlen, hmtlen,
        strBytes_spaces_length])
      (by simp) (by simp)
    rw [h1, show (355 : Nat) = 100 + 255 by norm_num, List.replicate_add,
      ← List.append_assoc]
  have e9 : setBytes ((((((((nameField nb ++ strBytes "0000644\x00") ++
      strBytes "0001000\x00") ++ strBytes "0001000\x00") ++
      (padStart 11 (natToOctal fileSize) ++ [0])) ++
      (padStart 11 (natToOctal mtime) ++ [0])) ++ strBytes "        ") ++
      [0x30]) ++ List.replicate 100 0 ++ List.replicate 255 0) 257
      (strBytes "ustar\x00") =
      (((((((((nameField nb ++ strBytes "0000644\x00") ++
        strBytes "0001000\x00") ++ strBytes "0001000\x00") ++
        (padStart 11 (natToOctal fileSize) ++ [0])) ++
        (padStart 11 (natToOctal mtime) ++ [0])) ++ strBytes "        ") ++
        [0x30]) ++ List.replicate 100 0) ++ strBytes "ustar\x00") ++
        List.replicate 249 0 :=
    setBytes_step _ 255 257 _ 249
      (by simp only [List.length_append, nameField_length,
        strBytes_mode_length, strBytes_owner_length, hszlen, hmtlen,
        strBytes_spaces_length, List.length_cons, List.length_nil,
        List.length_replicate])
      (by rw [strBytes_magic_length]) (by rw [strBytes_magic_length]; omega)
  have e10 : setBytes (((((((((nameField nb ++ strBytes "0000644\x00") ++
      strBytes "0001000\x00") ++ strBytes "0001000\x00") ++
      (padStart 11 (natToOctal fileSize) ++ [0])) ++
      (padStart 11 (natToOctal mtime) ++ [0])) ++ strBytes "        ") ++
      [0x30]) ++ List.replicate 100 0) ++ strBytes "ustar\x00" ++
      List.replicate 249 0) 263 (strBytes "00") =
      ((((((((((nameField nb ++ strBytes "0000644\x00") ++
        strBytes "0001000\x00") ++ strBytes "0001000\x00") ++
        (padStart 11 (natToOctal fileSize) ++ [0])) ++
        (padStart 11 (natToOctal mtime) ++ [0])) ++ strBytes "        ") ++
        [0x30]) ++ List.replicate 100 0) ++ strBytes "ustar\x00") ++
        strBytes "00") ++ List.replicate 247 0 :=
    setBytes_step _ 249 263 _ 247
      (by simp only [List.length_append, nameField_length,
        strBytes_mode_length, strBytes_owner_length, hszlen, hmtlen,
        strBytes_spaces_length, strBytes_magic_length, List.length_cons,
        List.length_nil, List.length_replicate])
      (by rw [strBytes_version_length]) (by rw [strBytes_version_length]; omega)
  have hdecomp : ((((((((((nameField nb ++ strBytes "0000644\x00") ++
      strBytes "0001000\x00") ++ strBytes "0001000\x00") ++
      (padStart 11 (natToOctal fileSize) ++ [0])) ++
      (padStart 11 (natToOctal mtime) ++ [0])) ++ strBytes "        ") ++
      [0x30]) ++ List.replicate 100 0) ++ strBytes "ustar\x00") ++
      strBytes "00") ++ List.replicate 247 0 = headerPre nb fileSize mtime := by
    simp [headerPre, headerFront, headerBack, List.append_assoc]
  have htake : (headerPre nb fileSize mtime).take 512 =
      headerPre nb fileSize mtime :=
    List.take_of_length_le (by rw [headerPre_length nb fileSize mtime hsz hmt])
  have hcslen : (padStart 6 (natToOctal (tarChecksum nb fileSize mtime)) ++
      [0, 32]).length = (strBytes "        ").length := by
    rw [strBytes_spaces_length]
    simp [padStart_length 6 _ (natToOctal_length_le 6 _ (by omega)
      (tarChecksum_lt nb fileSize mtime hnb hsz hmt))]
  unfold createTarHeader
  simp only []
  rw [e1, e2, e3, e4, e5, e6, e7, e8, e9, e10, hdecomp, htake,
    show (headerPre nb fileSize mtime).sum = tarChecksum nb fileSize mtime
      from rfl,
    show headerPre nb fileSize mtime = headerFront nb fileSize mtime ++
      strBytes "        " ++ headerBack from rfl]
  exact setBytes_mid _ _ _ _ 148
    (headerFront_length nb fileSize mtime hsz hmt) hcslen

/-- Right-associated canonical decomposition of the finished header. -/
theorem createTarHeader_decomp (nb : List Nat) (fileSize mtime : Nat)
    (hnb : ∀ b ∈ nb, b ≤ 255)
    (hsz : fileSize < 8 ^ 11) (hmt : mtime < 8 ^ 11) :
    createTarHeader nb fileSize mtime =
      nameField nb ++ (strBytes "0000644\x00" ++ (strBytes "0001000\x00" ++
        (strBytes "0001000\x00" ++ ((padStart 11 (natToOctal fileSize) ++ [0]) ++
        ((padStart 11 (natToOctal mtime) ++ [0]) ++
        ((padStart 6 (natToOctal (tarChecksum nb fileSize mtime)) ++ [0, 32]) ++
        headerBack)))))) := by
  rw [createTarHeader_eq nb fileSize mtime hnb hsz hmt]
  simp [headerFront, List.append_assoc]

theorem createTarHeader_length (nb : List Nat) (fileSize mtime : Nat)
    (hnb : ∀ b ∈ nb, b ≤ 255)
    (hsz : fileSize < 8 ^ 11) (hmt : mtime < 8 ^ 11) :
    (createTarHeader nb fileSize mtime).length = 512 := by
  have hcs : (padStart 6 (natToOctal (tarChecksum nb fileSize mtime))).length = 6 :=
    padStart_length 6 _ (natToOctal_length_le 6 _ (by omega)
      (tarChecksum_lt nb fileSize mtime hnb hsz hmt))
  rw [createTarHeader_eq nb fileSize mtime hnb hsz hmt]
  simp only [List.length_append, headerFront_length nb fileSize mtime hsz hmt,
    headerBack_length, hcs, List.length_cons, List.length_nil]

/-- The first 100 bytes of the header are the zero-padded (truncated)
name. -/
theorem createTarHeader_take_100 (nb : List Nat) (fileSize mtime : Nat)
    (hnb : ∀ b ∈ nb, b ≤ 255)
    (hsz : fileSize < 8 ^ 11) (hmt : mtime < 8 ^ 11) :
    (createTarHeader nb fileSize mtime).take 100 = nameField nb := by
  rw [createTarHeader_decomp nb fileSize mtime hnb hsz hmt,
    List.take_append_eq_append_take,
    List.take_of_length_le (le_of_eq (nameField_length nb)),
    nameField_length]
  simp

/-- Bytes 124–134 of the header hold the octal size field. -/
theorem createTarHeader_sizeField (nb : List Nat) (fileSize mtime : Nat)
    (hnb : ∀ b ∈ nb, b ≤ 255)
    (hsz : fileSize < 8 ^ 11) (hmt : mtime < 8 ^ 11) :
    ((createTarHeader nb fileSize mtime).drop 124).take 11 =
      padStart 11 (natToOctal fileSize) := by
  have hp1 : (padStart 11 (natToOctal fileSize)).length = 11 :=
    padStart_length 11 _ (natToOctal_length_le 11 fileSize (by omega) hsz)
  rw [createTarHeader_decomp nb fileSize mtime hnb hsz hmt]
  rw [List.drop_append_eq_append_drop,
    List.drop_eq_nil_of_le (by rw [nameField_length]; omega), nameField_length]
  rw [List.nil_append, List.drop_append_eq_append_drop,
    List.drop_eq_nil_of_le (by rw [strBytes_mode_length]; omega),
    strBytes_mode_length]
  rw [List.nil_append, List.drop_append_eq_append_drop,
    List.drop_eq_nil_of_le (by rw [strBytes_owner_length]; omega),
    strBytes_owner_length]
  rw [List.nil_append, List.drop_append_eq_append_drop,
    List.drop_eq_nil_of_le (by rw [strBytes_owner_length]),
    strBytes_owner_length]
  norm_num
  rw [List.take_append_eq_append_take,
    List.take_of_length_le (le_of_eq hp1), hp1]
  simp

/-- The header is never an all-zero block (e.g. the mode field). -/
theorem createTarHeader_not_zero (nb : List Nat) (fileSize mtime : Nat)
    (hnb : ∀ b ∈ nb, b ≤ 255)
    (hsz : fileSize < 8 ^ 11) (hmt : mtime < 8 ^ 11) :
    (createTarHeader nb fileSize mtime).all (fun b => b == 0) = false := by
  rw [createTarHeader_decomp nb fileSize mtime hnb hsz hmt]
  simp only [List.all_append]
  rw [show (strBytes "0000644\x00").all (fun b => b == 0) = false by decide]
  simp

/-- The USTAR `prefix` field region (offsets 345–499) is always zero:
the writer never touches it. -/
theorem createTarHeader_prefixField (nb : List Nat) (fileSize mtime : Nat)
    (hnb : ∀ b ∈ nb, b ≤ 255)
    (hsz : fileSize < 8 ^ 11) (hmt : mtime < 8 ^ 11) :
    ((createTarHeader nb fileSize mtime).drop 345).take 155 =
      List.replicate 155 0 := by
  have hfl := headerFront_length nb fileSize mtime hsz hmt
  have hcs8 : (padStart 6 (natToOctal (tarChecksum nb fileSize mtime)) ++
      [0, 32]).length = 8 := by
    simp [padStart_length 6 _ (natToOctal_length_le 6 _ (by omega)
      (tarChecksum_lt nb fileSize mtime hnb hsz hmt))]
  rw [createTarHeader_eq nb fileSize mtime hnb hsz hmt]
  rw [List.drop_append_eq_append_drop,
    List.drop_eq_nil_of_le (by simp [hfl, hcs8]), List.nil_append]
  rw [headerBack, List.drop_append_eq_append_drop,
    List.drop_eq_nil_of_le (by
      simp [strBytes_magic_length, strBytes_version_length, hfl, hcs8]),
    List.nil_append, List.drop_replicate, List.take_replicate]
  simp [List.length_append, hfl, hcs8, strBytes_magic_length,
    strBytes_version_length]

/-- Embedding of the archive-building loop of `handlePackage`: for each
file of the `files` record, in insertion order, a header, the UTF-8
content bytes, and — only when `padding < 512` — a padding block of
`512 - length % 512` zero bytes; then the end-of-archive marker
`new Uint8Array(1024)`.  The subsequent gzip compression is transport
only and is not modelled. -/
def handlePackageTar (files : List (List Nat × List Nat)) (mtime : Nat) :
    List Nat :=
  (files.flatMap fun fc =>
    createTarHeader fc.1 fc.2.length mtime ++ fc.2 ++
      (if 512 - fc.2.length % 512 < 512 then
        List.replicate (512 - fc.2.length % 512) 0
      else [])) ++
  List.replicate 1024 0

/-- Zero padding up to the next 512-byte boundary (0 when aligned). -/
def padTo512 (n : Nat) : Nat :=
  (512 - n % 512) % 512

theorem padBlock_eq (n : Nat) :
    (if 512 - n % 512 < 512 then List.replicate (512 - n % 512) (0 : Nat)
      else []) = List.replicate (padTo512 n) 0 := by
  unfold padTo512
  rcases eq_or_ne (n % 512) 0 with h | h
  · simp [h]
  · have h1 : n % 512 < 512 := Nat.mod_lt _ (by norm_num)
    rw [if_pos (by omega),
      Nat.mod_eq_of_lt (show 512 - n % 512 < 512 by omega)]

/-- The buffer built by `handlePackage` in its documented shape: per file
one header, the content, zero padding to the next 512-byte boundary, and
two terminating 512-byte zero blocks. -/
theorem handlePackageTar_layout (files : List (List Nat × List Nat))
    (mtime : Nat) :
    handlePackageTar files mtime =
      (files.flatMap fun fc =>
        createTarHeader fc.1 fc.2.length mtime ++ fc.2 ++
          List.replicate (padTo512 fc.2.length) 0) ++
      (List.replicate 512 0 ++ List.replicate 512 0) := by
  unfold handlePackageTar
  rw [← List.replicate_add]
  simp only [padBlock_eq]

/-- A minimal standard tar reader: reads a 512-byte header, stops at an
all-zero block, recovers the NUL-terminated name and the octal size
field, takes the content and skips its padding, and repeats. -/
def readTarEntries : Nat → List Nat → List (List Nat × List Nat)
  | 0, _ => []
  | fuel + 1, bs =>
    let header := bs.take 512
    if header.all (fun b => b == 0) then []
    else
      let name := (header.take 100).takeWhile (fun b => b != 0)
      let size := readOctalBytes ((header.drop 124).take 11)
      (name, (bs.drop 512).take size) ::
        readTarEntries fuel ((bs.drop 512).drop (size + padTo512 size))

theorem takeWhile_append_of_all (p : Nat → Bool) (xs ys : List Nat)
    (h : ∀ x ∈ xs, p x = true) :
    (xs ++ ys).takeWhile p = xs ++ ys.takeWhile p := by
  induction xs with
  | nil => simp
  | cons x xs ih =>
    have hx := h x (by simp)
    simp only [List.cons_append, List.takeWhile_cons, hx, if_true]
    rw [ih (fun a ha => h a (by simp [ha]))]

theorem takeWhile_ne_zero_replicate (k : Nat) :
    (List.replicate k 0).takeWhile (fun b => b != 0) = [] := by
  cases k with
  | zero => simp
  | succ k => simp [List.replicate_succ]

/-- The name recorded in the header field, as a reader recovers it. -/
theorem nameField_takeWhile (nb : List Nat) (hlen : nb.length ≤ 100)
    (hnz : ∀ b ∈ nb, 0 < b) :
    (nameField nb).takeWhile (fun b => b != 0) = nb := by
  unfold nameField
  rw [List.take_of_length_le hlen,
    takeWhile_append_of_all _ nb _ (by
      intro x hx
      have := hnz x hx
      simpa using Nat.pos_iff_ne_zero.mp this),
    takeWhile_ne_zero_replicate, List.append_nil]

/-- Extraction: a standard tar reader applied to the package buffer
recovers every file's name bytes and content bytes, in order. -/
theorem readTarEntries_handlePackageTar (files : List (List Nat × List Nat))
    (mtime fuel : Nat) (hmt : mtime < 8 ^ 11) (hfuel : files.length < fuel)
    (hfiles : ∀ fc ∈ files, fc.1.length ≤ 100 ∧
      (∀ b ∈ fc.1, 0 < b ∧ b ≤ 255) ∧ fc.2.length < 8 ^ 11) :
    readTarEntries fuel (handlePackageTar files mtime) = files := by
  induction files generalizing fuel with
  | nil =>
    cases fuel with
    | zero => omega
    | succ f =>
      rw [handlePackageTar]
      simp only [List.flatMap_nil, List.nil_append, readTarEntries]
      rw [List.take_replicate]
      norm_num
  | cons fc rest ih =>
    obtain ⟨nb, cont⟩ := fc
    cases fuel with
    | zero => simp at hfuel
    | succ f =>
      obtain ⟨hlen100, hbytes, hclen⟩ := hfiles (nb, cont) (by simp)
      have hb255 : ∀ b ∈ nb, b ≤ 255 := fun b hb => (hbytes b hb).2
      have hH := createTarHeader_length nb cont.length mtime hb255 hclen hmt
      have hsplit : handlePackageTar ((nb, cont) :: rest) mtime =
          createTarHeader nb cont.length mtime ++
            (cont ++ (List.replicate (padTo512 cont.length) 0 ++
              handlePackageTar rest mtime)) := by
        rw [handlePackageTar_layout ((nb, cont) :: rest) mtime,
          handlePackageTar_layout rest mtime, List.flatMap_cons]
        simp [List.append_assoc]
      have h1 : (createTarHeader nb cont.length mtime ++
          (cont ++ (List.replicate (padTo512 cont.length) 0 ++
            handlePackageTar rest mtime))).take 512 =
          createTarHeader nb cont.length mtime := List.take_left' hH
      have h2 : (createTarHeader nb cont.length mtime ++
          (cont ++ (List.replicate (padTo512 cont.length) 0 ++
            handlePackageTar rest mtime))).drop 512 =
          cont ++ (List.replicate (padTo512 cont.length) 0 ++
            handlePackageTar rest mtime) := List.drop_left' hH
      have h3 := createTarHeader_not_zero nb cont.length mtime hb255 hclen hmt
      have h4 : ((createTarHeader nb cont.length mtime).take 100).takeWhile
          (fun b => b != 0) = nb := by
        rw [createTarHeader_take_100 nb cont.length mtime hb255 hclen hmt]
        exact nameField_takeWhile nb hlen100 (fun b hb => (hbytes b hb).1)
      have h5 : readOctalBytes (((createTarHeader nb cont.length mtime).drop
          124).take 11) = cont.length := by
        rw [createTarHeader_sizeField nb cont.length mtime hb255 hclen hmt]
        exact readOctalBytes_padStart 11 cont.length
      have h6 : (cont ++ (List.replicate (padTo512 cont.length) 0 ++
          handlePackageTar rest mtime)).take cont.length = cont :=
        List.take_left' rfl
      have h7 : (cont ++ (List.replicate (padTo512 cont.length) 0 ++
          handlePackageTar rest mtime)).drop
          (cont.length + padTo512 cont.length) =
          handlePackageTar rest mtime := by
        rw [← List.append_assoc]
        exact List.drop_left' (by simp)
      rw [hsplit]
      simp only [readTarEntries]
      rw [h1, h3]
      rw [if_neg (by simp)]
      rw [h5, h4, h2, h6, h7]
      have hrest : readTarEntries f (handlePackageTar rest mtime) = rest :=
        ih f (by simpa using Nat.lt_of_succ_lt_succ hfuel)
          (fun fc hfc => hfiles fc (by simp [hfc]))
      rw [hrest]

theorem takeWhile_eq_self_of_all (p : Nat → Bool) (xs : List Nat)
    (h : ∀ x ∈ xs, p x = true) : xs.takeWhile p = xs := by
  simpa using takeWhile_append_of_all p xs [] h

/-- The checksum rule exactly as claim C4 words it: zero-fill the 8-byte
checksum field of the finished header and sum all bytes (spec-side
definition, for comparison with the code's space-filled sum). -/
def zeroFillChecksum (header : List Nat) : Nat :=
  (setBytes header 148 (List.replicate 8 0)).sum

/-- Sample file set: a 0-byte file, a file of exactly 512 bytes and a
file of 513 bytes (the boundary cases named by claim C3). -/
def samplePackageFiles : List (List Nat × List Nat) :=
  [(strBytes "a.txt", []),
   (strBytes "b.txt", List.replicate 512 1),
   (strBytes "c.txt", List.replicate 513 1)]

/-- C3: the uncompressed tar buffer is, for each file in insertion
order, exactly one 512-byte header followed by the content zero-padded
to the next 512-byte boundary (no padding block when the length is
already a multiple of 512), terminated by two 512-byte zero blocks, and
a standard tar reader recovers byte-identical names and contents. -/
theorem c3_package_tar_layout (files : List (List Nat × List Nat))
    (mtime : Nat) (hmt : mtime < 8 ^ 11)
    (hfiles : ∀ fc ∈ files, fc.1.length ≤ 100 ∧
      (∀ b ∈ fc.1, 0 < b ∧ b ≤ 255) ∧ fc.2.length < 8 ^ 11) :
    handlePackageTar files mtime =
      (files.flatMap fun fc =>
        createTarHeader fc.1 fc.2.length mtime ++ fc.2 ++
          List.replicate (padTo512 fc.2.length) 0) ++
      (List.replicate 512 0 ++ List.replicate 512 0) ∧
    (∀ fc ∈ files, (createTarHeader fc.1 fc.2.length mtime).length = 512) ∧
    readTarEntries (files.length + 1) (handlePackageTar files mtime) =
      files := by
  refine ⟨handlePackageTar_layout files mtime, ?_, ?_⟩
  · intro fc hfc
    obtain ⟨h1, h2, h3⟩ := hfiles fc hfc
    exact createTarHeader_length fc.1 fc.2.length mtime
      (fun b hb => (h2 b hb).2) h3 hmt
  · exact readTarEntries_handlePackageTar files mtime (files.length + 1) hmt
      (Nat.lt_succ_self _) hfiles

theorem c3_package_tar_layout_witness :
    (0 < 8 ^ 11 ∧ ∀ fc ∈ samplePackageFiles, fc.1.length ≤ 100 ∧
      (∀ b ∈ fc.1, 0 < b ∧ b ≤ 255) ∧ fc.2.length < 8 ^ 11) ∧
    (handlePackageTar samplePackageFiles 0 =
      (samplePackageFiles.flatMap fun fc =>
        createTarHeader fc.1 fc.2.length 0 ++ fc.2 ++
          List.replicate (padTo512 fc.2.length) 0) ++
      (List.replicate 512 0 ++ List.replicate 512 0) ∧
    (∀ fc ∈ samplePackageFiles,
      (createTarHeader fc.1 fc.2.length 0).length = 512) ∧
    readTarEntries (samplePackageFiles.length + 1)
      (handlePackageTar samplePackageFiles 0) = samplePackageFiles) :=
  ⟨⟨by norm_num, by decide⟩,
    c3_package_tar_layout samplePackageFiles 0 (by norm_num) (by decide)⟩

/-- C4 counterexample: at the concrete input (name "a", size 0, mtime 0)
the stored checksum digits are not the octal encoding of the sum taken
with a zero-filled checksum field; the code space-fills the field
instead, which shifts the sum by 8 × 32. -/
theorem c4_checksum_zero_fill_counterexample :
    ((createTarHeader (strBytes "a") 0 0).drop 148).take 6 ≠
      padStart 6 (natToOctal
        (zeroFillChecksum (createTarHeader (strBytes "a") 0 0))) := by
  decide

/-- C4 (amended): the checksum is computed in a single pass on the fully
populated header with the checksum field SPACE-filled (eight ASCII
spaces, as USTAR prescribes), the sum of all 512 bytes is re-encoded as
six zero-padded octal digits followed by NUL and space, and written over
the field. -/
theorem c4_checksum_space_filled (nb : List Nat) (fileSize mtime : Nat)
    (hnb : ∀ b ∈ nb, b ≤ 255)
    (hsz : fileSize < 8 ^ 11) (hmt : mtime < 8 ^ 11) :
    ((createTarHeader nb fileSize mtime).drop 148).take 8 =
      padStart 6 (natToOctal (tarChecksum nb fileSize mtime)) ++ [0, 32] ∧
    tarChecksum nb fileSize mtime =
      (setBytes (createTarHeader nb fileSize mtime) 148
        (strBytes "        ")).sum := by
  have hfl := headerFront_length nb fileSize mtime hsz hmt
  have hcs8 : (padStart 6 (natToOctal (tarChecksum nb fileSize mtime)) ++
      [0, 32]).length = 8 := by
    simp [padStart_length 6 _ (natToOctal_length_le 6 _ (by omega)
      (tarChecksum_lt nb fileSize mtime hnb hsz hmt))]
  constructor
  · rw [createTarHeader_eq nb fileSize mtime hnb hsz hmt, List.append_assoc,
      List.drop_left' hfl, List.take_left' hcs8]
  · rw [createTarHeader_eq nb fileSize mtime hnb hsz hmt,
      setBytes_mid _ _ _ _ 148 hfl (by rw [hcs8, strBytes_spaces_length])]
    rfl

theorem c4_checksum_space_filled_witness :
    ((∀ b ∈ strBytes "a", b ≤ 255) ∧ 0 < 8 ^ 11) ∧
    (((createTarHeader (strBytes "a") 0 0).drop 148).take 8 =
      padStart 6 (natToOctal (tarChecksum (strBytes "a") 0 0)) ++ [0, 32] ∧
    tarChecksum (strBytes "a") 0 0 =
      (setBytes (createTarHeader (strBytes "a") 0 0) 148
        (strBytes "        ")).sum) :=
  ⟨⟨by decide, by norm_num⟩,
    c4_checksum_space_filled (strBytes "a") 0 0 (by decide) (by norm_num)
      (by norm_num)⟩

/-- C10: a name longer than 100 bytes is silently truncated — the header
records only the first 100 bytes (so the recorded path differs from the
original), a name of at most 100 bytes is stored in full, and the USTAR
`prefix` field region at offset 345 is always zero (never used). -/
theorem c10_name_truncation (nb : List Nat) (fileSize mtime : Nat)
    (hbytes : ∀ b ∈ nb, 0 < b ∧ b ≤ 255)
    (hsz : fileSize < 8 ^ 11) (hmt : mtime < 8 ^ 11) :
    (nb.length ≤ 100 →
      ((createTarHeader nb fileSize mtime).take 100).takeWhile
        (fun b => b != 0) = nb) ∧
    (100 < nb.length →
      ((createTarHeader nb fileSize mtime).take 100).takeWhile
        (fun b => b != 0) = nb.take 100 ∧ nb.take 100 ≠ nb) ∧
    ((createTarHeader nb fileSize mtime).drop 345).take 155 =
      List.replicate 155 0 := by
  have hb255 : ∀ b ∈ nb, b ≤ 255 := fun b hb => (hbytes b hb).2
  have htk := createTarHeader_take_100 nb fileSize mtime hb255 hsz hmt
  refine ⟨?_, ?_, createTarHeader_prefixField nb fileSize mtime hb255 hsz hmt⟩
  · intro hle
    rw [htk]
    exact nameField_takeWhile nb hle (fun b hb => (hbytes b hb).1)
  · intro hgt
    have hnf : nameField nb = nb.take 100 := by
      unfold nameField
      rw [show (100 : Nat) - (nb.take 100).length = 0 by
        simp [List.length_take]
        omega]
      simp
    constructor
    · rw [htk, hnf]
      exact takeWhile_eq_self_of_all _ _ (fun x hx => by
        have := (hbytes x (List.mem_of_mem_take hx)).1
        simpa using Nat.pos_iff_ne_zero.mp this)
    · intro he
      have := congrArg List.length he
      simp [List.length_take] at this
      omega

theorem c10_name_truncation_witness :
    ((∀ b ∈ List.replicate 101 97, 0 < b ∧ b ≤ 255) ∧ 0 < 8 ^ 11) ∧
    ((List.replicate 101 97).length ≤ 100 →
      ((createTarHeader (List.replicate 101 97) 0 0).take 100).takeWhile
        (fun b => b != 0) = List.replicate 101 97) ∧
    (100 < (List.replicate 101 97).length →
      ((createTarHeader (List.replicate 101 97) 0 0).take 100).takeWhile
        (fun b => b != 0) = (List.replicate 101 97).take 100 ∧
      (List.replicate 101 97).take 100 ≠ List.replicate 101 97) ∧
    ((createTarHeader (List.replicate 101 97) 0 0).drop 345).take 155 =
      List.replicate 155 0 :=
  ⟨⟨by decide, by norm_num⟩,
    c10_name_truncation (List.replicate 101 97) 0 0 (by decide) (by norm_num)
      (by norm_num)⟩

/-! ## The Fly.io deploy stream (`handleFlyDeploy`) -/

/-- Substring containment on character lists: the needle is a prefix of
some suffix of the haystack. -/
def containsSub (hay sub : List Char) : Bool :=
  if sub.isPrefixOf hay then true
  else
    match hay with
    | [] => false
    | _ :: t => containsSub t sub

/-- Embedding of `String.prototype.includes`. -/
def jsIncludes (s sub : String) : Bool :=
  containsSub s.toList sub.toList

/-- One chunk arriving from the create-app subprocess, tagged by the
stream it arrived on. -/
inductive StdChunk
  | out (text : String)
  | err (text : String)
deriving DecidableEq

/-- Observable actions of the deploy stream, in order of execution: a
write to the log (`controller.enqueue`), removal of the temporary build
directory (`rm(buildDir, ...)`), and closing (`controller.close()`). -/
inductive StreamAct
  | logLine (text : String)
  | removeDir
  | closeStream
deriving DecidableEq

/-- Rendering of a `number | null` exit code in a template literal. -/
def exitCodeText : Option Int → String
  | some n => toString n
  | none => "null"

/-- Embedding of the `deploy.on('close')` handler: flyctl can exit 0
while only printing usage help, so the accumulated output must also
contain one of the known deployment indicators. -/
def deployCloseCheck (code : Option Int) (deployOutput : String) :
    Except String Unit :=
  let actuallyDeployed :=
    jsIncludes deployOutput "has been deployed" ||
    jsIncludes deployOutput "deployed successfully" ||
    jsIncludes deployOutput "Machines are starting" ||
    jsIncludes deployOutput "Visit your newly deployed app"
  if (code == some 0) && actuallyDeployed then
    Except.ok ()
  else if (code == some 0) && !actuallyDeployed then
    Except.error
      "flyctl exited but deployment did not complete. Check the log above for details."
  else
    Except.error ("flyctl deploy exited with code " ++ exitCodeText code)

/-- What the `flyctl deploy` subprocess did: its forwarded output chunks
(stdout and stderr in arrival order, also accumulated into
`deployOutput`), ending either in a close event with an exit code or in
a spawn error. -/
inductive DeployOutcome
  | closed (chunks : List String) (code : Option Int)
  | spawnError (chunks : List String) (message : String)

def outcomeChunks : DeployOutcome → List String
  | .closed chunks _ => chunks
  | .spawnError chunks _ => chunks

/-- Resolution of the step-2 promise: the close handler's verdict, or
the spawn error. -/
def deployStepResult : DeployOutcome → Except String Unit
  | .closed chunks code => deployCloseCheck code (String.join chunks)
  | .spawnError _ message => Except.error message

/-- The create-app stderr handler: an "already exists" message is
replaced by a reuse notice, anything else is forwarded verbatim. -/
def provisionStderrLog (flyAppName msg : String) : String :=
  if jsIncludes msg "already exists" then
    "App \"" ++ flyAppName ++ "\" already exists, reusing it.\n"
  else msg

/-- What step 1 logs for one subprocess chunk: stdout verbatim, stderr
through the "already exists" filter. -/
def provisionChunkLog (flyAppName : String) : StdChunk → String
  | .out text => text
  | .err text => provisionStderrLog flyAppName text

/-- Step-1 log lines: the two headers then the create-app output.  The
create-app promise resolves on both 'close' and 'error', so this step
never fails. -/
def flyStep1 (flyAppName flyRegion : String) (port : Nat)
    (provisionChunks : List StdChunk) : List StreamAct :=
  StreamAct.logLine ("[1/3] Creating Fly.io app \"" ++ flyAppName ++
      "\" in region \"" ++ flyRegion ++ "\"...\n") ::
    StreamAct.logLine ("       Detected internal port: " ++ toString port ++
      "\n") ::
    provisionChunks.map (fun c =>
      StreamAct.logLine (provisionChunkLog flyAppName c))

/-- Step-2 header lines. -/
def flyStep2Header : List StreamAct :=
  [StreamAct.logLine
      "\n[2/3] Deploying to Fly.io (this builds the Docker image on Fly's remote builders)...\n",
   StreamAct.logLine "       Using Dockerfile from project.\n\n"]

/-- Step-3 log lines, written only when step 2 resolved. -/
def flySuccessBlock (flyAppName : String) : List StreamAct :=
  [StreamAct.logLine "\n[3/3] Deployment complete!\n",
   StreamAct.logLine "\n✓ App deployed successfully to Fly.io\n",
   StreamAct.logLine ("  URL: https://" ++ flyAppName ++ ".fly.dev\n"),
   StreamAct.logLine ("  Dashboard: https://fly.io/apps/" ++ flyAppName ++
     "\n"),
   StreamAct.logLine ("\n  To check status: flyctl status --app " ++
     flyAppName ++ "\n"),
   StreamAct.logLine ("  To view logs:    flyctl logs --app " ++ flyAppName ++
     "\n")]

/-- The catch block: failure marker and troubleshooting hints. -/
def flyFailureBlock (message : String) : List StreamAct :=
  [StreamAct.logLine ("\n✗ Deployment failed: " ++ message ++ "\n"),
   StreamAct.logLine "\nTroubleshooting:\n",
   StreamAct.logLine "  1. Run \"flyctl auth login\" to ensure you're authenticated\n",
   StreamAct.logLine "  2. Run \"flyctl apps list\" to check your apps\n",
   StreamAct.logLine "  3. Check your Dockerfile for build errors\n"]

/-- The observable action trace of the `handleFlyDeploy` stream body:
try { step 1; step 2 (may throw); step 3 } catch { failure marker and
troubleshooting } finally { remove build dir; close stream }. -/
def flyDeployTrace (flyAppName flyRegion : String) (port : Nat)
    (provisionChunks : List StdChunk) (outcome : DeployOutcome) :
    List StreamAct :=
  flyStep1 flyAppName flyRegion port provisionChunks ++
  flyStep2Header ++
  (outcomeChunks outcome).map StreamAct.logLine ++
  (match deployStepResult outcome with
    | Except.ok _ => flySuccessBlock flyAppName
    | Except.error e => flyFailureBlock e) ++
  [StreamAct.removeDir, StreamAct.closeStream]

/-- C1: if the deploy subprocess closes with exit code 0 but its
accumulated output contains none of the four success phrases, the step
rejects with the "did not complete" error, and the stream logs the
failure marker and troubleshooting block — the step-3 success block is
never written. -/
theorem c1_zero_exit_without_phrase_fails (flyAppName flyRegion : String)
    (port : Nat) (provisionChunks : List StdChunk) (chunks : List String)
    (hno : (jsIncludes (String.join chunks) "has been deployed" ||
        jsIncludes (String.join chunks) "deployed successfully" ||
        jsIncludes (String.join chunks) "Machines are starting" ||
        jsIncludes (String.join chunks) "Visit your newly deployed app") =
        false) :
    deployStepResult (DeployOutcome.closed chunks (some 0)) =
      Except.error
        "flyctl exited but deployment did not complete. Check the log above for details." ∧
    flyDeployTrace flyAppName flyRegion port provisionChunks
        (DeployOutcome.closed chunks (some 0)) =
      flyStep1 flyAppName flyRegion port provisionChunks ++
      flyStep2Header ++
      chunks.map StreamAct.logLine ++
      flyFailureBlock
        "flyctl exited but deployment did not complete. Check the log above for details." ++
      [StreamAct.removeDir, StreamAct.closeStream] := by
  have hres : deployStepResult (DeployOutcome.closed chunks (some 0)) =
      Except.error
        "flyctl exited but deployment did not complete. Check the log above for details." := by
    simp only [deployStepResult, deployCloseCheck, hno]
    simp
  refine ⟨hres, ?_⟩
  unfold flyDeployTrace
  rw [hres]
  simp [outcomeChunks, List.append_assoc]

theorem c1_zero_exit_without_phrase_fails_witness :
    ((jsIncludes (String.join ["Usage: flyctl deploy ...\n"])
        "has been deployed" ||
      jsIncludes (String.join ["Usage: flyctl deploy ...\n"])
        "deployed successfully" ||
      jsIncludes (String.join ["Usage: flyctl deploy ...\n"])
        "Machines are starting" ||
      jsIncludes (String.join ["Usage: flyctl deploy ...\n"])
        "Visit your newly deployed app") = false) ∧
    (deployStepResult
        (DeployOutcome.closed ["Usage: flyctl deploy ...\n"] (some 0)) =
      Except.error
        "flyctl exited but deployment did not complete. Check the log above for details." ∧
    flyDeployTrace "demo-app" "iad" 3000 []
        (DeployOutcome.closed ["Usage: flyctl deploy ...\n"] (some 0)) =
      flyStep1 "demo-app" "iad" 3000 [] ++
      flyStep2Header ++
      ["Usage: flyctl deploy ...\n"].map StreamAct.logLine ++
      flyFailureBlock
        "flyctl exited but deployment did not complete. Check the log above for details." ++
      [StreamAct.removeDir, StreamAct.closeStream]) :=
  ⟨by decide,
    c1_zero_exit_without_phrase_fails "demo-app" "iad" 3000 []
      ["Usage: flyctl deploy ...\n"] (by decide)⟩

/-- C7: whatever the deploy step does — succeed, fail on its exit
status, or throw from spawn — the trace ends with exactly the build-dir
removal followed by the stream close, everything before them is a log
write, and on failure the remaining step is skipped: the tail before
cleanup is the troubleshooting block, not the success block. -/
theorem c7_cleanup_always_runs (flyAppName flyRegion : String) (port : Nat)
    (provisionChunks : List StdChunk) (outcome : DeployOutcome) :
    (∃ pre, flyDeployTrace flyAppName flyRegion port provisionChunks outcome =
        pre ++ [StreamAct.removeDir, StreamAct.closeStream] ∧
      ∀ a ∈ pre, ∃ s, a = StreamAct.logLine s) ∧
    (∀ e, deployStepResult outcome = Except.error e →
      flyDeployTrace flyAppName flyRegion port provisionChunks outcome =
        flyStep1 flyAppName flyRegion port provisionChunks ++
        flyStep2Header ++
        (outcomeChunks outcome).map StreamAct.logLine ++
        flyFailureBlock e ++
        [StreamAct.removeDir, StreamAct.closeStream]) := by
  constructor
  · refine ⟨flyStep1 flyAppName flyRegion port provisionChunks ++
      flyStep2Header ++
      (outcomeChunks outcome).map StreamAct.logLine ++
      (match deployStepResult outcome with
        | Except.ok _ => flySuccessBlock flyAppName
        | Except.error e => flyFailureBlock e), ?_, ?_⟩
    · simp [flyDeployTrace, List.append_assoc]
    · intro a ha
      simp only [List.mem_append] at ha
      rcases ha with ((ha | ha) | ha) | ha
      · simp only [flyStep1, List.mem_cons, List.mem_map] at ha
        rcases ha with h | h | ⟨c, _, h⟩
        · exact ⟨_, h⟩
        · exact ⟨_, h⟩
        · exact ⟨_, h.symm⟩
      · simp only [flyStep2Header, List.mem_cons, List.not_mem_nil,
          or_false] at ha
        rcases ha with h | h
        · exact ⟨_, h⟩
        · exact ⟨_, h⟩
      · simp only [List.mem_map] at ha
        obtain ⟨s, _, h⟩ := ha
        exact ⟨s, h.symm⟩
      · rcases hres : deployStepResult outcome with e | u
        · rw [hres] at ha
          simp only [flyFailureBlock, List.mem_cons, List.not_mem_nil,
            or_false] at ha
          rcases ha with h | h | h | h | h <;> exact ⟨_, h⟩
        · rw [hres] at ha
          simp only [flySuccessBlock, List.mem_cons, List.not_mem_nil,
            or_false] at ha
          rcases ha with h | h | h | h | h | h <;> exact ⟨_, h⟩
  · intro e he
    unfold flyDeployTrace
    rw [he]

/-- C8: a create-app stderr chunk reporting "already exists" is logged
as the reuse notice instead of the raw error text, and the pipeline
unconditionally continues into step 2 (the provision promise resolves on
both 'close' and 'error'). -/
theorem c8_already_exists_is_reused (flyAppName flyRegion msg : String)
    (port : Nat) (provisionChunks : List StdChunk) (outcome : DeployOutcome)
    (hmsg : jsIncludes msg "already exists" = true) :
    provisionChunkLog flyAppName (StdChunk.err msg) =
      "App \"" ++ flyAppName ++ "\" already exists, reusing it.\n" ∧
    (StdChunk.err msg ∈ provisionChunks →
      StreamAct.logLine
          ("App \"" ++ flyAppName ++ "\" already exists, reusing it.\n") ∈
        flyDeployTrace flyAppName flyRegion port provisionChunks outcome) ∧
    ∃ rest, flyDeployTrace flyAppName flyRegion port provisionChunks outcome =
      flyStep1 flyAppName flyRegion port provisionChunks ++
        (flyStep2Header ++ rest) := by
  have hlog : provisionChunkLog flyAppName (StdChunk.err msg) =
      "App \"" ++ flyAppName ++ "\" already exists, reusing it.\n" := by
    simp [provisionChunkLog, provisionStderrLog, hmsg]
  refine ⟨hlog, ?_, ?_⟩
  · intro hmem
    have hin : StreamAct.logLine
        ("App \"" ++ flyAppName ++ "\" already exists, reusing it.\n") ∈
        flyStep1 flyAppName flyRegion port provisionChunks := by
      simp only [flyStep1, List.mem_cons]
      right
      right
      simp only [List.mem_map]
      exact ⟨StdChunk.err msg, hmem, by rw [hlog]⟩
    unfold flyDeployTrace
    simp only [List.append_assoc, List.mem_append]
    exact Or.inl hin
  · exact ⟨(outcomeChunks outcome).map StreamAct.logLine ++
      (match deployStepResult outcome with
        | Except.ok _ => flySuccessBlock flyAppName
        | Except.error e => flyFailureBlock e) ++
      [StreamAct.removeDir, StreamAct.closeStream],
      by simp [flyDeployTrace, List.append_assoc]⟩

theorem c8_already_exists_is_reused_witness :
    jsIncludes "Error: name is already exists\n" "already exists" = true ∧
    (provisionChunkLog "demo-app"
        (StdChunk.err "Error: name is already exists\n") =
      "App \"demo-app\" already exists, reusing it.\n" ∧
    (StdChunk.err "Error: name is already exists\n" ∈
        [StdChunk.err "Error: name is already exists\n"] →
      StreamAct.logLine "App \"demo-app\" already exists, reusing it.\n" ∈
        flyDeployTrace "demo-app" "iad" 3000
          [StdChunk.err "Error: name is already exists\n"]
          (DeployOutcome.closed ["ok: has been deployed"] (some 0))) ∧
    ∃ rest, flyDeployTrace "demo-app" "iad" 3000
        [StdChunk.err "Error: name is already exists\n"]
        (DeployOutcome.closed ["ok: has been deployed"] (some 0)) =
      flyStep1 "demo-app" "iad" 3000
          [StdChunk.err "Error: name is already exists\n"] ++
        (flyStep2Header ++ rest)) :=
  ⟨by decide,
    c8_already_exists_is_reused "demo-app" "iad"
      "Error: name is already exists\n" 3000
      [StdChunk.err "Error: name is already exists\n"]
      (DeployOutcome.closed ["ok: has been deployed"] (some 0)) (by decide)⟩

theorem c7_cleanup_always_runs_witness :
    (∃ pre, flyDeployTrace "demo-app" "iad" 3000 []
        (DeployOutcome.spawnError [] "spawn flyctl ENOENT") =
        pre ++ [StreamAct.removeDir, StreamAct.closeStream] ∧
      ∀ a ∈ pre, ∃ s, a = StreamAct.logLine s) ∧
    (∀ e, deployStepResult
        (DeployOutcome.spawnError [] "spawn flyctl ENOENT") =
        Except.error e →
      flyDeployTrace "demo-app" "iad" 3000 []
          (DeployOutcome.spawnError [] "spawn flyctl ENOENT") =
        flyStep1 "demo-app" "iad" 3000 [] ++
        flyStep2Header ++
        (outcomeChunks
          (DeployOutcome.spawnError [] "spawn flyctl ENOENT")).map
          StreamAct.logLine ++
        flyFailureBlock e ++
        [StreamAct.removeDir, StreamAct.closeStream]) :=
  c7_cleanup_always_runs "demo-app" "iad" 3000 []
    (DeployOutcome.spawnError [] "spawn flyctl ENOENT")

/-! ## One-click deploy app naming (`handleOneClickDeploy`) -/

/-- Embedding of `projectName.replace(/[^a-z0-9-]/g, '')`: keep only
lower-case ASCII letters, digits and dashes. -/
def sanitizeProjectName (projectName : String) : String :=
  String.mk (projectName.toList.filter fun c =>
    (('a' ≤ c && c ≤ 'z') || ('0' ≤ c && c ≤ '9') || c == '-'))

/-- Embedding of the fresh-name generator
`projectName.replace(...).slice(0, 24) + '-' + Date.now().toString(36).slice(-4)`;
the time-derived four-character suffix is passed in explicitly. -/
def freshFlyAppName (projectName suffix : String) : String :=
  String.mk ((sanitizeProjectName projectName).toList.take 24) ++ "-" ++ suffix

/-- Embedding of `String.prototype.split` with a single-character
separator. -/
def jsSplit (sep : Char) : List Char → List (List Char)
  | [] => [[]]
  | c :: t =>
    match jsSplit sep t with
    | [] => [[]]
    | h :: r => if c == sep then [] :: h :: r else (c :: h) :: r

/-- Embedding of `hostname.split('.')[0]`. -/
def firstHostLabel (host : String) : String :=
  String.mk ((jsSplit '.' host.toList).headD [])

/-- Embedding of the app-name selection of `handleOneClickDeploy`.  The
stored metadata URL enters as `existingUrl`; `new URL(u).hostname` is
the platform URL parser, abstracted as `parseHostname` (returning `none`
when the constructor throws). -/
def chooseFlyAppName (parseHostname : String → Option String)
    (existingUrl : Option String) (projectName suffix : String) : String :=
  match existingUrl with
  | some u =>
    match parseHostname u with
    | some host => firstHostLabel host
    | none => freshFlyAppName projectName suffix
  | none => freshFlyAppName projectName suffix

/-- C2: when the metadata holds a previously deployed URL that parses,
the app name sent to the deploy endpoint is the first dot-separated
label of that URL's hostname and no suffixed name is generated; a fresh
`projectName-suffix` name is used only when no URL is stored or parsing
fails. -/
theorem c2_redeploy_reuses_app_name (parseHostname : String → Option String)
    (url projectName suffix host : String)
    (hparse : parseHostname url = some host) :
    chooseFlyAppName parseHostname (some url) projectName suffix =
      firstHostLabel host ∧
    (∀ p s, chooseFlyAppName parseHostname none p s = freshFlyAppName p s) ∧
    (∀ u p s, parseHostname u = none →
      chooseFlyAppName parseHostname (some u) p s = freshFlyAppName p s) := by
  refine ⟨?_, fun p s => rfl, fun u p s hu => ?_⟩
  · simp [chooseFlyAppName, hparse]
  · simp [chooseFlyAppName, hu]

theorem c2_redeploy_reuses_app_name_witness :
    (fun u => if u = "https://foo-ab12.fly.dev" then
        some "foo-ab12.fly.dev" else none) "https://foo-ab12.fly.dev" =
      some "foo-ab12.fly.dev" ∧
    (chooseFlyAppName
        (fun u => if u = "https://foo-ab12.fly.dev" then
          some "foo-ab12.fly.dev" else none)
        (some "https://foo-ab12.fly.dev") "my-project" "ab3k" =
      firstHostLabel "foo-ab12.fly.dev" ∧
    (∀ p s, chooseFlyAppName
        (fun u => if u = "https://foo-ab12.fly.dev" then
          some "foo-ab12.fly.dev" else none) none p s =
      freshFlyAppName p s) ∧
    (∀ u p s, (fun u => if u = "https://foo-ab12.fly.dev" then
          some "foo-ab12.fly.dev" else none) u = none →
      chooseFlyAppName
        (fun u => if u = "https://foo-ab12.fly.dev" then
          some "foo-ab12.fly.dev" else none) (some u) p s =
      freshFlyAppName p s)) :=
  ⟨by decide,
    c2_redeploy_reuses_app_name
      (fun u => if u = "https://foo-ab12.fly.dev" then
        some "foo-ab12.fly.dev" else none)
      "https://foo-ab12.fly.dev" "my-project" "ab3k" "foo-ab12.fly.dev"
      (by decide)⟩

/-- Sanity: the first label of the sample hostname is the app name. -/
theorem sample_hostname_first_label :
    firstHostLabel "foo-ab12.fly.dev" = "foo-ab12" := by
  decide

/-! ## Analytics tracker injection (`handleFlyDeploy`) -/

/-- Embedding of `String.prototype.replace` with a plain-string pattern:
replace the first occurrence only; no occurrence leaves the string
unchanged.  (The tracker script contains no `$`-replacement patterns, so
literal substitution is exact.) -/
def replaceFirst (s pat rep : List Char) : List Char :=
  if pat.isPrefixOf s then rep ++ s.drop pat.length
  else
    match s with
    | [] => []
    | c :: t => c :: replaceFirst t pat rep

theorem isPrefixOf_self (l : List Char) : l.isPrefixOf l = true := by
  induction l with
  | nil => rfl
  | cons c t ih => simp [List.isPrefixOf, ih]

theorem isPrefixOf_append_left (pat x y : List Char)
    (h : pat.isPrefixOf x = true) : pat.isPrefixOf (x ++ y) = true := by
  induction pat generalizing x with
  | nil => simp [List.isPrefixOf]
  | cons p ps ih =>
    cases x with
    | nil => simp [List.isPrefixOf] at h
    | cons a as =>
      simp only [List.isPrefixOf, List.cons_append, Bool.and_eq_true] at *
      exact ⟨h.1, ih as h.2⟩

theorem eq_append_drop_of_isPrefixOf (pat s : List Char)
    (h : pat.isPrefixOf s = true) : s = pat ++ s.drop pat.length := by
  induction pat generalizing s with
  | nil => simp
  | cons p ps ih =>
    cases s with
    | nil => simp [List.isPrefixOf] at h
    | cons a as =>
      simp only [List.isPrefixOf, Bool.and_eq_true, beq_iff_eq] at h
      obtain ⟨rfl, h2⟩ := h
      simpa using ih as h2

theorem containsSub_nil (pat : List Char) (hpat : pat ≠ []) :
    containsSub [] pat = false := by
  cases pat with
  | nil => exact absurd rfl hpat
  | cons p ps => simp [containsSub, List.isPrefixOf]

theorem containsSub_cons (c : Char) (t pat : List Char) :
    containsSub (c :: t) pat =
      if pat.isPrefixOf (c :: t) then true else containsSub t pat := by
  rw [containsSub]

theorem containsSub_sandwich (x sub y : List Char) :
    containsSub (x ++ sub ++ y) sub = true := by
  induction x with
  | nil =>
    rw [List.nil_append, containsSub.eq_def]
    rw [if_pos (isPrefixOf_append_left sub sub y (isPrefixOf_self sub))]
  | cons c t ih =>
    have hshape : (c :: t) ++ sub ++ y = c :: (t ++ sub ++ y) := by simp
    rw [hshape, containsSub_cons]
    split
    · rfl
    · exact ih

theorem replaceFirst_of_not_contains (s pat rep : List Char)
    (h : containsSub s pat = false) : replaceFirst s pat rep = s := by
  induction s with
  | nil =>
    rw [replaceFirst]
    split
    · rename_i hp
      rw [containsSub.eq_def, if_pos hp] at h
      exact absurd h (by simp)
    · rfl
  | cons c t ih =>
    rw [containsSub_cons] at h
    rw [replaceFirst]
    split
    · rename_i hp
      rw [if_pos hp] at h
      exact absurd h (by simp)
    · rename_i hp
      rw [if_neg hp] at h
      rw [ih h]

/-- Where `replaceFirst` rewrites: the first occurrence of the pattern,
with everything before it occurrence-free. -/
theorem replaceFirst_spec (s pat rep : List Char) (hpat : pat ≠ [])
    (h : containsSub s pat = true) :
    ∃ pre post, s = pre ++ pat ++ post ∧
      containsSub pre pat = false ∧
      replaceFirst s pat rep = pre ++ rep ++ post := by
  induction s with
  | nil => rw [containsSub_nil pat hpat] at h; exact absurd h (by simp)
  | cons c t ih =>
    rcases hp : pat.isPrefixOf (c :: t) with _ | _
    · have hcon : containsSub t pat = true := by
        rw [containsSub_cons, hp, if_neg (by simp)] at h
        exact h
      obtain ⟨pre, post, heq, hpre, hrep⟩ := ih hcon
      refine ⟨c :: pre, post, by simp [heq], ?_, ?_⟩
      · have hp2 : pat.isPrefixOf (c :: pre) = false := by
          rcases hq : pat.isPrefixOf (c :: pre) with _ | _
          · rfl
          · have : pat.isPrefixOf ((c :: pre) ++ (pat ++ post)) = true :=
              isPrefixOf_append_left pat (c :: pre) (pat ++ post) hq
            rw [show (c :: pre) ++ (pat ++ post) = c :: t by
              simp [heq]] at this
            rw [this] at hp
            exact absurd hp (by simp)
        rw [containsSub_cons, hp2, if_neg (by simp), hpre]
      · rw [replaceFirst, if_neg (by simp [hp]), hrep]
        simp
    · refine ⟨[], (c :: t).drop pat.length, ?_, containsSub_nil pat hpat, ?_⟩
      · simpa using eq_append_drop_of_isPrefixOf pat (c :: t) hp
      · rw [replaceFirst, if_pos hp]
        simp

/-- Embedding of the tracker-injection block of `handleFlyDeploy`: when
a callback origin is supplied and `index.html` exists, replace the first
closing body tag by the script followed by the tag; if the script did
not land, fall back to the first closing html tag; otherwise the file is
untouched.  The concrete script text is the `tracker` parameter. -/
def injectTracker (boltUrl : Option String) (indexHtml : Option (List Char))
    (tracker : List Char) : Option (List Char) :=
  match boltUrl, indexHtml with
  | some _, some html =>
    let h1 := replaceFirst html ("</body>".toList)
      (tracker ++ "</body>".toList)
    some (if containsSub h1 tracker then h1
      else replaceFirst h1 ("</html>".toList) (tracker ++ "</html>".toList))
  | _, _ => indexHtml

/-- C6 counterexample: an `index.html` with no closing body tag and no
closing html tag is left unchanged — the script is NOT "injected
immediately before the closing html tag" as the claim requires for
every no-body-tag file. -/
theorem c6_injection_counterexample :
    containsSub ("hello".toList) ("</body>".toList) = false ∧
    injectTracker (some "https://bolt.local") (some ("hello".toList))
      ("<script>t</script>".toList) = some ("hello".toList) ∧
    containsSub ("hello".toList) ("<script>t</script>".toList) = false := by
  refine ⟨by decide, ?_, by decide⟩
  decide

/-- C6 (amended): with a callback origin and an `index.html` present,
the script is injected immediately before the first closing body tag;
if no closing body tag exists, it is injected immediately before the
first closing html tag provided such a tag exists and the script is not
already present; with neither tag the file is unchanged; without a
callback origin or without `index.html`, nothing is modified. -/
theorem c6_tracker_injection (boltUrl : String) (html tracker : List Char) :
    (containsSub html ("</body>".toList) = true →
      ∃ pre post, html = pre ++ "</body>".toList ++ post ∧
        containsSub pre ("</body>".toList) = false ∧
        injectTracker (some boltUrl) (some html) tracker =
          some (pre ++ (tracker ++ "</body>".toList) ++ post)) ∧
    (containsSub html ("</body>".toList) = false →
      containsSub html tracker = false →
      containsSub html ("</html>".toList) = true →
      ∃ pre post, html = pre ++ "</html>".toList ++ post ∧
        containsSub pre ("</html>".toList) = false ∧
        injectTracker (some boltUrl) (some html) tracker =
          some (pre ++ (tracker ++ "</html>".toList) ++ post)) ∧
    (containsSub html ("</body>".toList) = false →
      containsSub html ("</html>".toList) = false →
      injectTracker (some boltUrl) (some html) tracker = some html) ∧
    (∀ h, injectTracker none h tracker = h) ∧
    injectTracker (some boltUrl) none tracker = none := by
  refine ⟨?_, ?_, ?_, fun h => rfl, rfl⟩
  · intro hbody
    obtain ⟨pre, post, heq, hpre, hrep⟩ :=
      replaceFirst_spec html ("</body>".toList) (tracker ++ "</body>".toList)
        (by decide) hbody
    refine ⟨pre, post, heq, hpre, ?_⟩
    have htr : containsSub
        (replaceFirst html ("</body>".toList)
          (tracker ++ "</body>".toList)) tracker = true := by
      rw [hrep]
      have : pre ++ (tracker ++ "</body>".toList) ++ post =
          pre ++ tracker ++ ("</body>".toList ++ post) := by
        simp [List.append_assoc]
      rw [this]
      exact containsSub_sandwich pre tracker ("</body>".toList ++ post)
    simp only [injectTracker, htr, if_true]
    rw [hrep]
  · intro hnobody hnotr hhtml
    have h1 : replaceFirst html ("</body>".toList)
        (tracker ++ "</body>".toList) = html :=
      replaceFirst_of_not_contains _ _ _ hnobody
    obtain ⟨pre, post, heq, hpre, hrep⟩ :=
      replaceFirst_spec html ("</html>".toList) (tracker ++ "</html>".toList)
        (by decide) hhtml
    refine ⟨pre, post, heq, hpre, ?_⟩
    simp only [injectTracker, h1, hnotr, if_false, Bool.false_eq_true]
    rw [hrep]
  · intro hnobody hnohtml
    have h1 : replaceFirst html ("</body>".toList)
        (tracker ++ "</body>".toList) = html :=
      replaceFirst_of_not_contains _ _ _ hnobody
    have h2 : replaceFirst html ("</html>".toList)
        (tracker ++ "</html>".toList) = html :=
      replaceFirst_of_not_contains _ _ _ hnohtml
    simp only [injectTracker, h1, h2]
    split <;> rfl

theorem c6_tracker_injection_witness :
    containsSub ("<html><body>hi</body></html>".toList)
      ("</body>".toList) = true ∧
    (∃ pre post, "<html><body>hi</body></html>".toList =
        pre ++ "</body>".toList ++ post ∧
      containsSub pre ("</body>".toList) = false ∧
      injectTracker (some "https://bolt.local")
          (some ("<html><body>hi</body></html>".toList))
          ("<script>t</script>".toList) =
        some (pre ++ ("<script>t</script>".toList ++ "</body>".toList) ++
          post)) :=
  ⟨by decide,
    (c6_tracker_injection "https://bolt.local"
      ("<html><body>hi</body></html>".toList)
      ("<script>t</script>".toList)).1 (by decide)⟩

/-! ## The project detector (`DockerDeploy.client.tsx`, `detectProject`) -/

/-- JavaScript truthiness of an optional JSON string value: present and
non-empty. -/
def truthy : Option String → Bool
  | some s => !s.isEmpty
  | none => false

inductive ProjType
  | node
  | staticSite
  | python
  | unknown
deriving DecidableEq

inductive PkgManager
  | npm
  | yarn
  | pnpm
deriving DecidableEq

/-- The fields of a parsed `package.json` that `detectProject` reads.
`JSON.parse` is the platform parser; a thrown parse error appears as the
surrounding `Option` (see `FileSet.packageJson`).  String-valued fields
model the scenarios the detector is written for. -/
structure Pkg where
  scriptsBuild : Option String
  scriptsStart : Option String
  scriptsServe : Option String
  scriptsPreview : Option String
  main : Option String
  dependencies : List (String × String)
  devDependencies : List (String × String)
  enginesNode : Option String

/-- `{...pkg.dependencies, ...pkg.devDependencies}` followed by a key
access: devDependencies win on duplicate keys. -/
def depsGet (pkg : Pkg) (key : String) : Option String :=
  (pkg.devDependencies.lookup key).orElse fun _ =>
    pkg.dependencies.lookup key

/-- The observations `detectProject` makes on the collected file record:
presence of the probed files, and the parse result of `package.json`
(outer `Option` = file present, inner = `JSON.parse` succeeded). -/
structure FileSet where
  packageJson : Option (Option Pkg)
  pnpmLock : Bool
  yarnLock : Bool
  requirementsTxt : Bool
  pyprojectToml : Bool
  setupPy : Bool
  mainPy : Bool
  indexHtml : Bool

structure ProjectDetection where
  type : ProjType
  hasPackageJson : Bool
  hasBuildScript : Bool
  buildCommand : String
  startCommand : String
  buildOutputDir : String
  nodeVersion : String
  packageManager : PkgManager

/-- The first run of decimal digits in a string — embedding of
`s.match(/(\d+)/)`. -/
def firstDigitRun : List Char → Option String
  | [] => none
  | c :: t =>
    if c.isDigit then some (String.mk (c :: t.takeWhile Char.isDigit))
    else firstDigitRun t

/-- Embedding of `detectProject`: defaults, the Node branch (build and
start scripts, framework-specific output directories, engines, package
manager), then the Python override and the static-site fallback. -/
def detectProject (files : FileSet) : ProjectDetection :=
  let result : ProjectDetection :=
    { type := ProjType.unknown, hasPackageJson := false,
      hasBuildScript := false, buildCommand := "", startCommand := "",
      buildOutputDir := "dist", nodeVersion := "20",
      packageManager := PkgManager.npm }
  let result :=
    match files.packageJson with
    | none => result
    | some parseRes =>
      let r := { result with type := ProjType.node, hasPackageJson := true }
      let r :=
        match parseRes with
        | none => r
        | some pkg =>
          let r :=
            if truthy pkg.scriptsBuild then
              { r with
                  hasBuildScript := true
                  buildCommand := "npm run build" }
            else r
          let r :=
            if truthy pkg.scriptsStart then
              { r with startCommand := "npm run start" }
            else if truthy pkg.scriptsServe then
              { r with startCommand := "npm run serve" }
            else if truthy pkg.scriptsPreview then
              { r with startCommand := "npm run preview" }
            else if truthy pkg.main then
              { r with startCommand := "node " ++ pkg.main.getD "" }
            else
              { r with startCommand := "node index.js" }
          let r :=
            if truthy (depsGet pkg "next") then
              { r with
                  buildOutputDir := ".next"
                  startCommand := "npm run start" }
            else if truthy (depsGet pkg "nuxt") ||
                truthy (depsGet pkg "nuxt3") then
              { r with buildOutputDir := ".output" }
            else if truthy (depsGet pkg "@remix-run/react") ||
                truthy (depsGet pkg "remix") then
              { r with buildOutputDir := "build" }
            else if truthy (depsGet pkg "vite") ||
                truthy (depsGet pkg "@vitejs/plugin-react") then
              { r with buildOutputDir := "dist" }
            else if truthy (depsGet pkg "react-scripts") then
              { r with buildOutputDir := "build" }
            else r
          let r :=
            match pkg.enginesNode with
            | some s =>
              match firstDigitRun s.toList with
              | some d => { r with nodeVersion := d }
              | none => r
            | none => r
          r
      if files.pnpmLock then { r with packageManager := PkgManager.pnpm }
      else if files.yarnLock then { r with packageManager := PkgManager.yarn }
      else r
  let result :=
    if files.requirementsTxt || files.pyprojectToml || files.setupPy then
      { result with
          type := ProjType.python
          startCommand := if files.mainPy then "python main.py"
            else "python app.py" }
    else result
  if (result.type == ProjType.unknown) && files.indexHtml then
    { result with
        type := ProjType.staticSite
        startCommand := ""
        buildOutputDir := "." }
  else result

/-- A `package.json` with BOTH a `next` and a `vite` dependency entry, a
build script and no start script. -/
def nextVitePkg : Pkg :=
  { scriptsBuild := some "vite build"
    scriptsStart := none
    scriptsServe := none
    scriptsPreview := none
    main := none
    dependencies := [("next", "14.0.0"), ("vite", "5.0.0")]
    devDependencies := []
    enginesNode := none }

def nextViteFiles : FileSet :=
  { packageJson := some (some nextVitePkg)
    pnpmLock := false
    yarnLock := false
    requirementsTxt := false
    pyprojectToml := false
    setupPy := false
    mainPy := false
    indexHtml := false }

/-- A `package.json` with only a `vite` dependency, a build script and
no start script. -/
def viteOnlyPkg : Pkg :=
  { scriptsBuild := some "vite build"
    scriptsStart := none
    scriptsServe := none
    scriptsPreview := none
    main := none
    dependencies := [("vite", "5.0.0")]
    devDependencies := []
    enginesNode := none }

def viteOnlyFiles : FileSet :=
  { packageJson := some (some viteOnlyPkg)
    pnpmLock := false
    yarnLock := false
    requirementsTxt := false
    pyprojectToml := false
    setupPy := false
    mainPy := false
    indexHtml := false }

set_option maxHeartbeats 2000000 in
/-- C9 counterexample: a file set whose `package.json` has a `vite`
dependency entry, a `build` script and no `start` script, yet the
detector returns `buildOutputDir = ".next"` — the `next` branch of the
framework chain wins before `vite` is consulted. -/
theorem c9_detector_counterexample :
    (nextVitePkg.dependencies.lookup "vite").isSome = true ∧
    truthy nextVitePkg.scriptsBuild = true ∧
    nextVitePkg.scriptsStart = none ∧
    (detectProject nextViteFiles).hasBuildScript = true ∧
    (detectProject nextViteFiles).buildOutputDir ≠ "dist" := by
  decide

/-- C9 (amended): for every file set whose `package.json` parses with a
truthy `vite` entry among the merged dependencies, a truthy `build`
script, no start script, and no truthy `next`/`nuxt`/`nuxt3`/
`@remix-run/react`/`remix` entry, the detector returns
`hasBuildScript = true` and `buildOutputDir = "dist"` (and, being a pure
function, it is deterministic in its argument). -/
theorem c9_detector_vite_dist (files : FileSet) (pkg : Pkg)
    (hpkg : files.packageJson = some (some pkg))
    (hbuild : truthy pkg.scriptsBuild = true)
    (hstart : truthy pkg.scriptsStart = false)
    (hvite : truthy (depsGet pkg "vite") = true)
    (hnext : truthy (depsGet pkg "next") = false)
    (hnuxt : truthy (depsGet pkg "nuxt") = false)
    (hnuxt3 : truthy (depsGet pkg "nuxt3") = false)
    (hremixReact : truthy (depsGet pkg "@remix-run/react") = false)
    (hremix : truthy (depsGet pkg "remix") = false) :
    (detectProject files).hasBuildScript = true ∧
    (detectProject files).buildOutputDir = "dist" := by
  unfold detectProject
  rw [hpkg]
  rcases henv : pkg.enginesNode with _ | s
  · simp [henv, hbuild, hstart, hvite, hnext, hnuxt, hnuxt3, hremixReact,
      hremix, apply_ite ProjectDetection.hasBuildScript,
      apply_ite ProjectDetection.buildOutputDir,
      apply_ite ProjectDetection.type,
      apply_ite (fun t : ProjType => t == ProjType.unknown), ite_self]
  · rcases hfd : firstDigitRun s.data with _ | d <;>
      simp [henv, hfd, hbuild, hstart, hvite, hnext, hnuxt, hnuxt3,
        hremixReact, hremix, apply_ite ProjectDetection.hasBuildScript,
        apply_ite ProjectDetection.buildOutputDir,
        apply_ite ProjectDetection.type,
        apply_ite (fun t : ProjType => t == ProjType.unknown), ite_self]

theorem c9_detector_vite_dist_witness :
    (viteOnlyFiles.packageJson = some (some viteOnlyPkg) ∧
      truthy viteOnlyPkg.scriptsBuild = true ∧
      truthy viteOnlyPkg.scriptsStart = false ∧
      truthy (depsGet viteOnlyPkg "vite") = true ∧
      truthy (depsGet viteOnlyPkg "next") = false) ∧
    ((detectProject viteOnlyFiles).hasBuildScript = true ∧
      (detectProject viteOnlyFiles).buildOutputDir = "dist") :=
  ⟨⟨rfl, by decide, by decide, by decide, by decide⟩,
    c9_detector_vite_dist viteOnlyFiles viteOnlyPkg rfl (by decide)
      (by decide) (by decide) (by decide) (by decide) (by decide)
      (by decide) (by decide)⟩

/-! ## The streaming artifact parser

Modelled from the spec: the parser implementation file
(`EnhancedStreamingMessageParser`, `~/lib/runtime/enhanced-message-parser`)
is not part of the source tree — only its caller `useMessageParser` is —
so the model below follows §4.1 of the specification: a cursor-based
single pass per call over the full accumulated text, resuming from the
last committed position; per-message state; an opening tag carrying an
id (artifact) or a payload (action), file-action content treated as
opaque raw text up to the closing tag; when the text ends inside a
possibly-incomplete tag the parser does not consume past the last safe
boundary and waits for more text; file actions fire open at their
opening tag, non-file actions fire open and close together at their
closing tag.  The exact attribute syntax is an external contract, so
the model fixes a concrete representative vocabulary
(`<artifact ID>` … `</artifact>`, `<action PAYLOAD>` … `</action>`,
with a `file ` payload prefix marking file actions).  The returned
visible text is not modelled; the claim is about the emitted events. -/

def artOpenHead : List Char := "<artifact ".toList

def artCloseTag : List Char := "</artifact>".toList

def actOpenHead : List Char := "<action ".toList

def actCloseTag : List Char := "</action>".toList

def filePayloadHead : List Char := "file ".toList

/-- Split a character list at the first `'>'`. -/
def splitAtGt : List Char → Option (List Char × List Char)
  | [] => none
  | c :: t =>
    if c == '>' then some ([], t)
    else
      match splitAtGt t with
      | none => none
      | some (p, r) => some (c :: p, r)

/-- Match a complete opening tag `head ++ payload ++ ">"` at the front
of the text, returning the payload and the rest. -/
def matchOpenTag (head cs : List Char) : Option (List Char × List Char) :=
  if head.isPrefixOf cs then splitAtGt (cs.drop head.length) else none

/-- The available text could still grow into an opening tag
`head ++ … ++ ">"`: the parser must wait for more text. -/
def pendingOpen (head cs : List Char) : Bool :=
  (cs.isPrefixOf head && !(head.isPrefixOf cs)) ||
    (head.isPrefixOf cs && (splitAtGt (cs.drop head.length)).isNone)

/-- The available text is a proper prefix of the literal closing tag:
wait for more text. -/
def pendingLit (lit cs : List Char) : Bool :=
  cs.isPrefixOf lit && !(lit.isPrefixOf cs)

/-- Parser position in the §4.1 state machine, with the accumulators the
pending events need. -/
inductive PMode
  | outside
  | inArtifact (aid : List Char)
  | inFile (aid path acc : List Char)
  | inOther (aid payload acc : List Char)
deriving DecidableEq

/-- The parser's emitted open/close events. -/
inductive PEvent
  | artifactOpen (aid : List Char)
  | artifactClose (aid : List Char)
  | actionOpenFile (path : List Char)
  | actionCloseFile (path content : List Char)
  | actionOpenOther (payload : List Char)
  | actionCloseOther (payload content : List Char)
deriving DecidableEq

structure ScanResult where
  events : List PEvent
  mode : PMode
  rest : List Char
deriving DecidableEq

theorem isPrefixOf_length_le (l cs : List Char)
    (h : l.isPrefixOf cs = true) : l.length ≤ cs.length := by
  induction l generalizing cs with
  | nil => simp
  | cons a as ih =>
    cases cs with
    | nil => simp [List.isPrefixOf] at h
    | cons b bs =>
      simp only [List.isPrefixOf, Bool.and_eq_true] at h
      have := ih bs h.2
      simp only [List.length_cons]
      omega

theorem isPrefixOf_trans (a b c : List Char) (h1 : a.isPrefixOf b = true)
    (h2 : b.isPrefixOf c = true) : a.isPrefixOf c = true := by
  induction a generalizing b c with
  | nil => simp [List.isPrefixOf]
  | cons x xs ih =>
    cases b with
    | nil => simp [List.isPrefixOf] at h1
    | cons y ys =>
      cases c with
      | nil => simp [List.isPrefixOf] at h2
      | cons z zs =>
        simp only [List.isPrefixOf, Bool.and_eq_true, beq_iff_eq] at *
        exact ⟨h1.1.trans h2.1, ih ys zs h1.2 h2.2⟩

theorem append_isPrefixOf_imp (cs d l : List Char)
    (h : (cs ++ d).isPrefixOf l = true) : cs.isPrefixOf l = true := by
  induction cs generalizing l with
  | nil => simp [List.isPrefixOf]
  | cons c t ih =>
    cases l with
    | nil => simp [List.isPrefixOf] at h
    | cons x xs =>
      simp only [List.cons_append, List.isPrefixOf, Bool.and_eq_true] at *
      exact ⟨h.1, ih xs h.2⟩

theorem isPrefixOf_append_cases (lit cs d : List Char)
    (h : lit.isPrefixOf (cs ++ d) = true) :
    lit.isPrefixOf cs = true ∨
      (cs.isPrefixOf lit = true ∧ cs.length < lit.length) := by
  induction cs generalizing lit with
  | nil =>
    cases lit with
    | nil => left; rfl
    | cons x xs =>
      right
      simp [List.isPrefixOf]
  | cons c t ih =>
    cases lit with
    | nil => left; simp [List.isPrefixOf]
    | cons x xs =>
      simp only [List.cons_append, List.isPrefixOf, Bool.and_eq_true,
        beq_iff_eq] at h
      rcases ih xs h.2 with h1 | ⟨h1, h2⟩
      · left
        simp [List.isPrefixOf, h.1, h1]
      · right
        constructor
        · simp [List.isPrefixOf, h.1.symm, h1]
        · simp only [List.length_cons]
          omega

theorem drop_append_of_le (n : Nat) (cs d : List Char)
    (h : n ≤ cs.length) : (cs ++ d).drop n = cs.drop n ++ d := by
  rw [List.drop_append_eq_append_drop,
    show n - cs.length = 0 by omega, List.drop_zero]

theorem splitAtGt_eq (t p r : List Char) (h : splitAtGt t = some (p, r)) :
    t = p ++ '>' :: r := by
  induction t generalizing p with
  | nil => simp [splitAtGt] at h
  | cons c u ih =>
    rw [splitAtGt] at h
    split at h
    · rename_i hc
      simp only [Option.some.injEq, Prod.mk.injEq] at h
      obtain ⟨rfl, rfl⟩ := h
      simp only [beq_iff_eq] at hc
      simp [hc]
    · rename_i hc
      split at h
      · simp at h
      · rename_i p' r' hsp
        simp only [Option.some.injEq, Prod.mk.injEq] at h
        obtain ⟨rfl, rfl⟩ := h
        simp [ih p' hsp]

theorem splitAtGt_append (t d p r : List Char)
    (h : splitAtGt t = some (p, r)) :
    splitAtGt (t ++ d) = some (p, r ++ d) := by
  induction t generalizing p with
  | nil => simp [splitAtGt] at h
  | cons c u ih =>
    rw [splitAtGt] at h
    rw [List.cons_append, splitAtGt]
    split at h
    · rename_i hc
      simp only [Option.some.injEq, Prod.mk.injEq] at h
      obtain ⟨rfl, rfl⟩ := h
      simp [hc]
    · rename_i hc
      rw [if_neg (by simpa using hc)]
      split at h
      · simp at h
      · rename_i p' r' hsp
        simp only [Option.some.injEq, Prod.mk.injEq] at h
        obtain ⟨rfl, rfl⟩ := h
        rw [ih p' hsp]

theorem matchOpenTag_some_length (head cs p rest : List Char)
    (h : matchOpenTag head cs = some (p, rest)) :
    rest.length < cs.length := by
  unfold matchOpenTag at h
  split at h
  · rename_i hp
    have := splitAtGt_eq _ _ _ h
    have h2 : (cs.drop head.length).length ≤ cs.length := by
      simp
    have h3 : (cs.drop head.length).length = p.length + 1 + rest.length := by
      rw [this]
      simp only [List.length_append, List.length_cons]
      omega
    omega
  · simp at h

theorem matchOpenTag_append (head cs d p rest : List Char)
    (h : matchOpenTag head cs = some (p, rest)) :
    matchOpenTag head (cs ++ d) = some (p, rest ++ d) := by
  unfold matchOpenTag at *
  split at h
  · rename_i hp
    rw [if_pos (isPrefixOf_append_left head cs d hp),
      drop_append_of_le head.length cs d (isPrefixOf_length_le head cs hp)]
    exact splitAtGt_append _ _ _ _ h
  · simp at h

/-- A failed and non-pending literal-tag match stays failed and
non-pending under text extension. -/
theorem lit_ext (lit cs d : List Char)
    (hm : lit.isPrefixOf cs = false) (hp : pendingLit lit cs = false) :
    lit.isPrefixOf (cs ++ d) = false ∧ pendingLit lit (cs ++ d) = false := by
  unfold pendingLit at *
  have h1 : lit.isPrefixOf (cs ++ d) = false := by
    rcases hq : lit.isPrefixOf (cs ++ d) with _ | _
    · rfl
    · rcases isPrefixOf_append_cases lit cs d hq with h | ⟨h, h2⟩
      · rw [h] at hm
        exact absurd hm (by simp)
      · rw [h] at hp
        have : lit.isPrefixOf cs = true := by
          rcases hr : lit.isPrefixOf cs with _ | _
          · rw [hr] at hp
            simp at hp
          · rfl
        have := isPrefixOf_length_le lit cs this
        omega
  refine ⟨h1, ?_⟩
  rcases hq : (cs ++ d).isPrefixOf lit with _ | _
  · simp
  · have hcs : cs.isPrefixOf lit = true := append_isPrefixOf_imp cs d lit hq
    rw [hcs] at hp
    have hlitcs : lit.isPrefixOf cs = true := by
      rcases hr : lit.isPrefixOf cs with _ | _
      · rw [hr] at hp
        simp at hp
      · rfl
    have h2 := isPrefixOf_append_left lit cs d hlitcs
    rw [h2]
    simp

/-- A failed and non-pending opening-tag match stays failed and
non-pending under text extension. -/
theorem open_ext (head cs d : List Char)
    (hm : matchOpenTag head cs = none) (hp : pendingOpen head cs = false) :
    matchOpenTag head (cs ++ d) = none ∧
      pendingOpen head (cs ++ d) = false := by
  unfold matchOpenTag pendingOpen at *
  have h1 : head.isPrefixOf (cs ++ d) = false := by
    rcases hq : head.isPrefixOf (cs ++ d) with _ | _
    · rfl
    · rcases isPrefixOf_append_cases head cs d hq with h | ⟨h, h2⟩
      · rw [h] at hm hp
        rw [if_pos rfl] at hm
        rw [hm] at hp
        simp at hp
      · have hnh : head.isPrefixOf cs = false := by
          rcases hr : head.isPrefixOf cs with _ | _
          · rfl
          · have := isPrefixOf_length_le head cs hr
            omega
        rw [h, hnh] at hp
        simp at hp
  constructor
  · rw [h1]
    simp
  · rw [h1]
    simp only [Bool.false_and, Bool.or_false, Bool.not_false, Bool.and_true]
    rcases hq : (cs ++ d).isPrefixOf head with _ | _
    · simp
    · have hcs : cs.isPrefixOf head = true := append_isPrefixOf_imp cs d head hq
      rw [hcs] at hp
      have hlitcs : head.isPrefixOf cs = true := by
        rcases hr : head.isPrefixOf cs with _ | _
        · rw [hr] at hp
          simp at hp
        · rfl
      have h2 := isPrefixOf_append_left head cs d hlitcs
      rw [h2] at h1
      simp at h1

/-- One parser pass over the not-yet-consumed text: a cursor-based
single pass that recognizes the tags valid in the current mode, emits
their events, treats anything else as literal text or file/action
content, and stops — leaving the unresolved suffix as `rest` — when the
text ends inside a possibly-incomplete tag. -/
def scan : PMode → List Char → ScanResult
  | .outside, cs =>
    match hm : matchOpenTag artOpenHead cs with
    | some (aid, rest) =>
      let s := scan (.inArtifact aid) rest
      ⟨.artifactOpen aid :: s.events, s.mode, s.rest⟩
    | none =>
      if pendingOpen artOpenHead cs then ⟨[], .outside, cs⟩
      else
        match cs with
        | [] => ⟨[], .outside, []⟩
        | _ :: t => scan .outside t
  | .inArtifact aid, cs =>
    if hc : artCloseTag.isPrefixOf cs then
      let s := scan .outside (cs.drop artCloseTag.length)
      ⟨.artifactClose aid :: s.events, s.mode, s.rest⟩
    else
      match hm : matchOpenTag actOpenHead cs with
      | some (payload, rest) =>
        if filePayloadHead.isPrefixOf payload then
          let path := payload.drop filePayloadHead.length
          let s := scan (.inFile aid path []) rest
          ⟨.actionOpenFile path :: s.events, s.mode, s.rest⟩
        else
          scan (.inOther aid payload []) rest
      | none =>
        if pendingLit artCloseTag cs || pendingOpen actOpenHead cs then
          ⟨[], .inArtifact aid, cs⟩
        else
          match cs with
          | [] => ⟨[], .inArtifact aid, []⟩
          | _ :: t => scan (.inArtifact aid) t
  | .inFile aid path acc, cs =>
    if hc : actCloseTag.isPrefixOf cs then
      let s := scan (.inArtifact aid) (cs.drop actCloseTag.length)
      ⟨.actionCloseFile path acc :: s.events, s.mode, s.rest⟩
    else if pendingLit actCloseTag cs then ⟨[], .inFile aid path acc, cs⟩
    else
      match cs with
      | [] => ⟨[], .inFile aid path acc, []⟩
      | c :: t => scan (.inFile aid path (acc ++ [c])) t
  | .inOther aid payload acc, cs =>
    if hc : actCloseTag.isPrefixOf cs then
      let s := scan (.inArtifact aid) (cs.drop actCloseTag.length)
      ⟨.actionOpenOther payload :: .actionCloseOther payload acc :: s.events,
        s.mode, s.rest⟩
    else if pendingLit actCloseTag cs then ⟨[], .inOther aid payload acc, cs⟩
    else
      match cs with
      | [] => ⟨[], .inOther aid payload acc, []⟩
      | c :: t => scan (.inOther aid payload (acc ++ [c])) t
  termination_by _ cs => cs.length
  decreasing_by
  · exact matchOpenTag_some_length artOpenHead cs _ _ hm
  · simp
  · have := isPrefixOf_length_le artCloseTag cs (by simpa using hc)
    have h2 : artCloseTag.length = 11 := by decide
    simp only [List.length_drop]
    omega
  · exact matchOpenTag_some_length actOpenHead cs _ _ hm
  · exact matchOpenTag_some_length actOpenHead cs _ _ hm
  · simp
  · have := isPrefixOf_length_le actCloseTag cs (by simpa using hc)
    have h2 : actCloseTag.length = 9 := by decide
    simp only [List.length_drop]
    omega
  · simp
  · have := isPrefixOf_length_le actCloseTag cs (by simpa using hc)
    have h2 : actCloseTag.length = 9 := by decide
    simp only [List.length_drop]
    omega
  · simp

theorem scan_nil (m : PMode) : scan m [] = ⟨[], m, []⟩ := by
  cases m <;> rw [scan] <;> rfl

theorem scan_outside_some (cs aid rest : List Char)
    (hm : matchOpenTag artOpenHead cs = some (aid, rest)) :
    scan .outside cs =
      ⟨.artifactOpen aid :: (scan (.inArtifact aid) rest).events,
        (scan (.inArtifact aid) rest).mode,
        (scan (.inArtifact aid) rest).rest⟩ := by
  rw [scan]
  split
  · rename_i aid' rest' heq
    rw [hm] at heq
    simp only [Option.some.injEq, Prod.mk.injEq] at heq
    obtain ⟨rfl, rfl⟩ := heq
    rfl
  · rename_i heq
    rw [hm] at heq
    simp at heq

theorem scan_outside_stop (cs : List Char)
    (hm : matchOpenTag artOpenHead cs = none)
    (hp : pendingOpen artOpenHead cs = true) :
    scan .outside cs = ⟨[], .outside, cs⟩ := by
  rw [scan]
  split
  · rename_i aid' rest' heq
    rw [hm] at heq
    simp at heq
  · rw [if_pos hp]

theorem scan_outside_consume (c : Char) (t : List Char)
    (hm : matchOpenTag artOpenHead (c :: t) = none)
    (hp : pendingOpen artOpenHead (c :: t) = false) :
    scan .outside (c :: t) = scan .outside t := by
  rw [scan]
  split
  · rename_i aid' rest' heq
    rw [hm] at heq
    simp at heq
  · rw [if_neg (by simp [hp])]

theorem scan_inArtifact_close (aid cs : List Char)
    (hc : artCloseTag.isPrefixOf cs = true) :
    scan (.inArtifact aid) cs =
      ⟨.artifactClose aid ::
          (scan .outside (cs.drop artCloseTag.length)).events,
        (scan .outside (cs.drop artCloseTag.length)).mode,
        (scan .outside (cs.drop artCloseTag.length)).rest⟩ := by
  conv_lhs => rw [scan]
  rw [dif_pos hc]

theorem scan_inArtifact_file (aid cs payload rest : List Char)
    (hc : artCloseTag.isPrefixOf cs = false)
    (hm : matchOpenTag actOpenHead cs = some (payload, rest))
    (hf : filePayloadHead.isPrefixOf payload = true) :
    scan (.inArtifact aid) cs =
      ⟨.actionOpenFile (payload.drop filePayloadHead.length) ::
          (scan (.inFile aid (payload.drop filePayloadHead.length) [])
            rest).events,
        (scan (.inFile aid (payload.drop filePayloadHead.length) [])
          rest).mode,
        (scan (.inFile aid (payload.drop filePayloadHead.length) [])
          rest).rest⟩ := by
  conv_lhs => rw [scan]
  rw [dif_neg (by simp [hc])]
  split
  · rename_i payload' rest' heq
    rw [hm] at heq
    simp only [Option.some.injEq, Prod.mk.injEq] at heq
    obtain ⟨rfl, rfl⟩ := heq
    rw [if_pos hf]
  · rename_i heq
    rw [hm] at heq
    simp at heq

theorem scan_inArtifact_other (aid cs payload rest : List Char)
    (hc : artCloseTag.isPrefixOf cs = false)
    (hm : matchOpenTag actOpenHead cs = some (payload, rest))
    (hf : filePayloadHead.isPrefixOf payload = false) :
    scan (.inArtifact aid) cs = scan (.inOther aid payload []) rest := by
  conv_lhs => rw [scan]
  rw [dif_neg (by simp [hc])]
  split
  · rename_i payload' rest' heq
    rw [hm] at heq
    simp only [Option.some.injEq, Prod.mk.injEq] at heq
    obtain ⟨rfl, rfl⟩ := heq
    rw [if_neg (by simp [hf])]
  · rename_i heq
    rw [hm] at heq
    simp at heq

theorem scan_inArtifact_stop (aid cs : List Char)
    (hc : artCloseTag.isPrefixOf cs = false)
    (hm : matchOpenTag actOpenHead cs = none)
    (hp : (pendingLit artCloseTag cs || pendingOpen actOpenHead cs) = true) :
    scan (.inArtifact aid) cs = ⟨[], .inArtifact aid, cs⟩ := by
  conv_lhs => rw [scan]
  rw [dif_neg (by simp [hc])]
  split
  · rename_i payload' rest' heq
    rw [hm] at heq
    simp at heq
  · rw [if_pos hp]

theorem scan_inArtifact_consume (aid : List Char) (c : Char) (t : List Char)
    (hc : artCloseTag.isPrefixOf (c :: t) = false)
    (hm : matchOpenTag actOpenHead (c :: t) = none)
    (hp : (pendingLit artCloseTag (c :: t) ||
      pendingOpen actOpenHead (c :: t)) = false) :
    scan (.inArtifact aid) (c :: t) = scan (.inArtifact aid) t := by
  conv_lhs => rw [scan]
  rw [dif_neg (by simp [hc])]
  split
  · rename_i payload' rest' heq
    rw [hm] at heq
    simp at heq
  · rw [if_neg (by simp [hp])]

theorem scan_inFile_close (aid path acc cs : List Char)
    (hc : actCloseTag.isPrefixOf cs = true) :
    scan (.inFile aid path acc) cs =
      ⟨.actionCloseFile path acc ::
          (scan (.inArtifact aid) (cs.drop actCloseTag.length)).events,
        (scan (.inArtifact aid) (cs.drop actCloseTag.length)).mode,
        (scan (.inArtifact aid) (cs.drop actCloseTag.length)).rest⟩ := by
  conv_lhs => rw [scan]
  rw [dif_pos hc]

theorem scan_inFile_stop (aid path acc cs : List Char)
    (hc : actCloseTag.isPrefixOf cs = false)
    (hp : pendingLit actCloseTag cs = true) :
    scan (.inFile aid path acc) cs = ⟨[], .inFile aid path acc, cs⟩ := by
  conv_lhs => rw [scan]
  rw [dif_neg (by simp [hc]), if_pos hp]

theorem scan_inFile_consume (aid path acc : List Char) (c : Char)
    (t : List Char)
    (hc : actCloseTag.isPrefixOf (c :: t) = false)
    (hp : pendingLit actCloseTag (c :: t) = false) :
    scan (.inFile aid path acc) (c :: t) =
      scan (.inFile aid path (acc ++ [c])) t := by
  conv_lhs => rw [scan]
  rw [dif_neg (by simp [hc]), if_neg (by simp [hp])]

theorem scan_inOther_close (aid payload acc cs : List Char)
    (hc : actCloseTag.isPrefixOf cs = true) :
    scan (.inOther aid payload acc) cs =
      ⟨.actionOpenOther payload :: .actionCloseOther payload acc ::
          (scan (.inArtifact aid) (cs.drop actCloseTag.length)).events,
        (scan (.inArtifact aid) (cs.drop actCloseTag.length)).mode,
        (scan (.inArtifact aid) (cs.drop actCloseTag.length)).rest⟩ := by
  conv_lhs => rw [scan]
  rw [dif_pos hc]

theorem scan_inOther_stop (aid payload acc cs : List Char)
    (hc : actCloseTag.isPrefixOf cs = false)
    (hp : pendingLit actCloseTag cs = true) :
    scan (.inOther aid payload acc) cs =
      ⟨[], .inOther aid payload acc, cs⟩ := by
  conv_lhs => rw [scan]
  rw [dif_neg (by simp [hc]), if_pos hp]

theorem scan_inOther_consume (aid payload acc : List Char) (c : Char)
    (t : List Char)
    (hc : actCloseTag.isPrefixOf (c :: t) = false)
    (hp : pendingLit actCloseTag (c :: t) = false) :
    scan (.inOther aid payload acc) (c :: t) =
      scan (.inOther aid payload (acc ++ [c])) t := by
  conv_lhs => rw [scan]
  rw [dif_neg (by simp [hc]), if_neg (by simp [hp])]

/-- Coherence of the single pass under text extension: scanning the
whole of `cs ++ d` emits exactly the events of scanning `cs` followed by
the events of resuming from the held-back suffix extended by `d`. -/
theorem scan_append_aux : ∀ (n : Nat) (cs : List Char), cs.length ≤ n →
    ∀ (m : PMode) (d : List Char),
    scan m (cs ++ d) =
      ⟨(scan m cs).events ++
          (scan (scan m cs).mode ((scan m cs).rest ++ d)).events,
        (scan (scan m cs).mode ((scan m cs).rest ++ d)).mode,
        (scan (scan m cs).mode ((scan m cs).rest ++ d)).rest⟩ := by
  intro n
  induction n with
  | zero =>
    intro cs hcs m d
    have hnil : cs = [] := List.eq_nil_of_length_eq_zero (Nat.le_zero.mp hcs)
    subst hnil
    simp [scan_nil]
  | succ n ih =>
    intro cs hcs m d
    cases m with
    | outside =>
      rcases hm : matchOpenTag artOpenHead cs with _ | ⟨aid, rest⟩
      · rcases hp : pendingOpen artOpenHead cs with _ | _
        · obtain ⟨em, ep⟩ := open_ext artOpenHead cs d hm hp
          cases cs with
          | nil =>
            have hco : pendingOpen artOpenHead ([] : List Char) = true := by
              decide
            rw [hp] at hco
            exact absurd hco (by simp)
          | cons c t =>
            have ht : t.length ≤ n := by
              simp only [List.length_cons] at hcs
              omega
            rw [scan_outside_consume c t hm hp, List.cons_append,
              scan_outside_consume c (t ++ d) em ep]
            exact ih t ht .outside d
        · rw [scan_outside_stop cs hm hp]
          simp
      · have h1 := scan_outside_some cs aid rest hm
        have hm2 := matchOpenTag_append artOpenHead cs d aid rest hm
        have h2 := scan_outside_some (cs ++ d) aid (rest ++ d) hm2
        have hlt := matchOpenTag_some_length artOpenHead cs aid rest hm
        have hrec := ih rest (by omega) (.inArtifact aid) d
        rw [h1, h2, hrec]
        simp
    | inArtifact aid =>
      rcases hcb : artCloseTag.isPrefixOf cs with _ | _
      · rcases hm : matchOpenTag actOpenHead cs with _ | ⟨payload, rest⟩
        · rcases hp : (pendingLit artCloseTag cs ||
            pendingOpen actOpenHead cs) with _ | _
          · have hpl : pendingLit artCloseTag cs = false := by
              rcases h1 : pendingLit artCloseTag cs with _ | _
              · rfl
              · rw [h1] at hp
                simp at hp
            have hpo : pendingOpen actOpenHead cs = false := by
              rcases h1 : pendingOpen actOpenHead cs with _ | _
              · rfl
              · rw [h1] at hp
                simp at hp
            obtain ⟨el, epl⟩ := lit_ext artCloseTag cs d hcb hpl
            obtain ⟨eo, epo⟩ := open_ext actOpenHead cs d hm hpo
            cases cs with
            | nil =>
              have hco : pendingLit artCloseTag ([] : List Char) = true := by
                decide
              rw [hpl] at hco
              exact absurd hco (by simp)
            | cons c t =>
              have ht : t.length ≤ n := by
                simp only [List.length_cons] at hcs
                omega
              rw [scan_inArtifact_consume aid c t hcb hm hp,
                List.cons_append,
                scan_inArtifact_consume aid c (t ++ d) el eo
                  (by simp only [← List.cons_append]; rw [epl, epo]; rfl)]
              exact ih t ht (.inArtifact aid) d
          · rw [scan_inArtifact_stop aid cs hcb hm hp]
            simp
        · have hcb2 : artCloseTag.isPrefixOf (cs ++ d) = false := by
            rcases hq : artCloseTag.isPrefixOf (cs ++ d) with _ | _
            · rfl
            · exfalso
              rcases isPrefixOf_append_cases artCloseTag cs d hq with
                h | ⟨h, h2⟩
              · rw [h] at hcb
                exact absurd hcb (by simp)
              · have hhp : actOpenHead.isPrefixOf cs = true := by
                  unfold matchOpenTag at hm
                  split at hm
                  · assumption
                  · simp at hm
                have htr := isPrefixOf_trans actOpenHead cs artCloseTag hhp h
                have hfalse : actOpenHead.isPrefixOf artCloseTag = false := by
                  decide
                rw [htr] at hfalse
                exact absurd hfalse (by simp)
          have hm2 := matchOpenTag_append actOpenHead cs d payload rest hm
          have hlt := matchOpenTag_some_length actOpenHead cs payload rest hm
          rcases hf : filePayloadHead.isPrefixOf payload with _ | _
          · rw [scan_inArtifact_other aid cs payload rest hcb hm hf,
              scan_inArtifact_other aid (cs ++ d) payload (rest ++ d) hcb2
                hm2 hf]
            exact ih rest (by omega) (.inOther aid payload []) d
          · have h1 := scan_inArtifact_file aid cs payload rest hcb hm hf
            have h2 := scan_inArtifact_file aid (cs ++ d) payload (rest ++ d)
              hcb2 hm2 hf
            have hrec := ih rest (by omega)
              (.inFile aid (payload.drop filePayloadHead.length) []) d
            rw [h1, h2, hrec]
            simp
      · have h1 := scan_inArtifact_close aid cs hcb
        have hc2 := isPrefixOf_append_left artCloseTag cs d hcb
        have h2 := scan_inArtifact_close aid (cs ++ d) hc2
        have hlen := isPrefixOf_length_le artCloseTag cs hcb
        have hdrop := drop_append_of_le artCloseTag.length cs d hlen
        have hlt : (cs.drop artCloseTag.length).length ≤ n := by
          simp only [List.length_drop]
          have h11 : artCloseTag.length = 11 := by decide
          omega
        have hrec := ih _ hlt .outside d
        rw [h1, h2, hdrop, hrec]
        simp
    | inFile aid path acc =>
      rcases hcb : actCloseTag.isPrefixOf cs with _ | _
      · rcases hp : pendingLit actCloseTag cs with _ | _
        · obtain ⟨el, epl⟩ := lit_ext actCloseTag cs d hcb hp
          cases cs with
          | nil =>
            have hco : pendingLit actCloseTag ([] : List Char) = true := by
              decide
            rw [hp] at hco
            exact absurd hco (by simp)
          | cons c t =>
            have ht : t.length ≤ n := by
              simp only [List.length_cons] at hcs
              omega
            rw [scan_inFile_consume aid path acc c t hcb hp,
              List.cons_append,
              scan_inFile_consume aid path acc c (t ++ d) el epl]
            exact ih t ht (.inFile aid path (acc ++ [c])) d
        · rw [scan_inFile_stop aid path acc cs hcb hp]
          simp
      · have h1 := scan_inFile_close aid path acc cs hcb
        have hc2 := isPrefixOf_append_left actCloseTag cs d hcb
        have h2 := scan_inFile_close aid path acc (cs ++ d) hc2
        have hlen := isPrefixOf_length_le actCloseTag cs hcb
        have hdrop := drop_append_of_le actCloseTag.length cs d hlen
        have hlt : (cs.drop actCloseTag.length).length ≤ n := by
          simp only [List.length_drop]
          have h9 : actCloseTag.length = 9 := by decide
          omega
        have hrec := ih _ hlt (.inArtifact aid) d
        rw [h1, h2, hdrop, hrec]
        simp
    | inOther aid payload acc =>
      rcases hcb : actCloseTag.isPrefixOf cs with _ | _
      · rcases hp : pendingLit actCloseTag cs with _ | _
        · obtain ⟨el, epl⟩ := lit_ext actCloseTag cs d hcb hp
          cases cs with
          | nil =>
            have hco : pendingLit actCloseTag ([] : List Char) = true := by
              decide
            rw [hp] at hco
            exact absurd hco (by simp)
          | cons c t =>
            have ht : t.length ≤ n := by
              simp only [List.length_cons] at hcs
              omega
            rw [scan_inOther_consume aid payload acc c t hcb hp,
              List.cons_append,
              scan_inOther_consume aid payload acc c (t ++ d) el epl]
            exact ih t ht (.inOther aid payload (acc ++ [c])) d
        · rw [scan_inOther_stop aid payload acc cs hcb hp]
          simp
      · have h1 := scan_inOther_close aid payload acc cs hcb
        have hc2 := isPrefixOf_append_left actCloseTag cs d hcb
        have h2 := scan_inOther_close aid payload acc (cs ++ d) hc2
        have hlen := isPrefixOf_length_le actCloseTag cs hcb
        have hdrop := drop_append_of_le actCloseTag.length cs d hlen
        have hlt : (cs.drop actCloseTag.length).length ≤ n := by
          simp only [List.length_drop]
          have h9 : actCloseTag.length = 9 := by decide
          omega
        have hrec := ih _ hlt (.inArtifact aid) d
        rw [h1, h2, hdrop, hrec]
        simp

theorem scan_append (m : PMode) (cs d : List Char) :
    scan m (cs ++ d) =
      ⟨(scan m cs).events ++
          (scan (scan m cs).mode ((scan m cs).rest ++ d)).events,
        (scan (scan m cs).mode ((scan m cs).rest ++ d)).mode,
        (scan (scan m cs).mode ((scan m cs).rest ++ d)).rest⟩ :=
  scan_append_aux cs.length cs (le_refl _) m d

/-- Re-scanning the held-back suffix in the reached mode emits nothing:
the parser left it pending precisely because it could not be resolved. -/
theorem scan_idem (m : PMode) (cs : List Char) :
    scan (scan m cs).mode ((scan m cs).rest) =
      ⟨[], (scan m cs).mode, (scan m cs).rest⟩ := by
  have h := scan_append m cs []
  simp only [List.append_nil] at h
  have he := congrArg ScanResult.events h
  have hm := congrArg ScanResult.mode h
  have hr := congrArg ScanResult.rest h
  simp only at he hm hr
  have hev : (scan (scan m cs).mode ((scan m cs).rest)).events = [] := by
    have hl := congrArg List.length he
    simp only [List.length_append] at hl
    exact List.eq_nil_of_length_eq_zero (by omega)
  calc scan (scan m cs).mode ((scan m cs).rest)
      = ⟨(scan (scan m cs).mode ((scan m cs).rest)).events,
          (scan (scan m cs).mode ((scan m cs).rest)).mode,
          (scan (scan m cs).mode ((scan m cs).rest)).rest⟩ := rfl
    _ = ⟨[], (scan m cs).mode, (scan m cs).rest⟩ := by rw [hev, ← hm, ← hr]

theorem matchOpenTag_rest_suffix (head cs p rest : List Char)
    (h : matchOpenTag head cs = some (p, rest)) :
    ∃ pre, cs = pre ++ rest := by
  unfold matchOpenTag at h
  split at h
  · have hsp := splitAtGt_eq _ _ _ h
    refine ⟨cs.take head.length ++ p ++ ['>'], ?_⟩
    conv_lhs => rw [← List.take_append_drop head.length cs]
    rw [hsp]
    simp
  · simp at h

/-- The held-back text is always a suffix of the scanned text. -/
theorem scan_rest_suffix_aux : ∀ (n : Nat) (cs : List Char),
    cs.length ≤ n → ∀ (m : PMode), ∃ pre, cs = pre ++ (scan m cs).rest := by
  intro n
  induction n with
  | zero =>
    intro cs hcs m
    have hnil : cs = [] := List.eq_nil_of_length_eq_zero (Nat.le_zero.mp hcs)
    subst hnil
    exact ⟨[], by simp [scan_nil]⟩
  | succ n ih =>
    intro cs hcs m
    cases m with
    | outside =>
      rcases hm : matchOpenTag artOpenHead cs with _ | ⟨aid, rest⟩
      · rcases hp : pendingOpen artOpenHead cs with _ | _
        · cases cs with
          | nil =>
            have hco : pendingOpen artOpenHead ([] : List Char) = true := by
              decide
            rw [hp] at hco
            exact absurd hco (by simp)
          | cons c t =>
            have ht : t.length ≤ n := by
              simp only [List.length_cons] at hcs
              omega
            rw [scan_outside_consume c t hm hp]
            obtain ⟨pre, hpre⟩ := ih t ht .outside
            exact ⟨c :: pre, by rw [List.cons_append, ← hpre]⟩
        · rw [scan_outside_stop cs hm hp]
          exact ⟨[], by simp⟩
      · rw [scan_outside_some cs aid rest hm]
        obtain ⟨pre1, h1⟩ := matchOpenTag_rest_suffix _ _ _ _ hm
        have hlt := matchOpenTag_some_length artOpenHead cs aid rest hm
        obtain ⟨pre2, h2⟩ := ih rest (by omega) (.inArtifact aid)
        refine ⟨pre1 ++ pre2, ?_⟩
        conv_lhs => rw [h1, h2]
        simp [List.append_assoc]
    | inArtifact aid =>
      rcases hcb : artCloseTag.isPrefixOf cs with _ | _
      · rcases hm : matchOpenTag actOpenHead cs with _ | ⟨payload, rest⟩
        · rcases hp : (pendingLit artCloseTag cs ||
            pendingOpen actOpenHead cs) with _ | _
          · cases cs with
            | nil =>
              have hco : (pendingLit artCloseTag ([] : List Char) ||
                  pendingOpen actOpenHead []) = true := by decide
              rw [hp] at hco
              exact absurd hco (by simp)
            | cons c t =>
              have ht : t.length ≤ n := by
                simp only [List.length_cons] at hcs
                omega
              rw [scan_inArtifact_consume aid c t hcb hm hp]
              obtain ⟨pre, hpre⟩ := ih t ht (.inArtifact aid)
              exact ⟨c :: pre, by rw [List.cons_append, ← hpre]⟩
          · rw [scan_inArtifact_stop aid cs hcb hm hp]
            exact ⟨[], by simp⟩
        · have hlt := matchOpenTag_some_length actOpenHead cs payload rest hm
          obtain ⟨pre1, h1⟩ := matchOpenTag_rest_suffix _ _ _ _ hm
          rcases hf : filePayloadHead.isPrefixOf payload with _ | _
          · rw [scan_inArtifact_other aid cs payload rest hcb hm hf]
            obtain ⟨pre2, h2⟩ := ih rest (by omega) (.inOther aid payload [])
            refine ⟨pre1 ++ pre2, ?_⟩
            conv_lhs => rw [h1, h2]
            simp [List.append_assoc]
          · rw [scan_inArtifact_file aid cs payload rest hcb hm hf]
            obtain ⟨pre2, h2⟩ := ih rest (by omega)
              (.inFile aid (payload.drop filePayloadHead.length) [])
            refine ⟨pre1 ++ pre2, ?_⟩
            conv_lhs => rw [h1, h2]
            simp [List.append_assoc]
      · rw [scan_inArtifact_close aid cs hcb]
        have hlen := isPrefixOf_length_le artCloseTag cs hcb
        have h11 : artCloseTag.length = 11 := by decide
        obtain ⟨pre2, h2⟩ := ih (cs.drop artCloseTag.length)
          (by simp only [List.length_drop]; omega) .outside
        refine ⟨cs.take artCloseTag.length ++ pre2, ?_⟩
        conv_lhs => rw [← List.take_append_drop artCloseTag.length cs, h2]
        simp [List.append_assoc]
    | inFile aid path acc =>
      rcases hcb : actCloseTag.isPrefixOf cs with _ | _
      · rcases hp : pendingLit actCloseTag cs with _ | _
        · cases cs with
          | nil =>
            have hco : pendingLit actCloseTag ([] : List Char) = true := by
              decide
            rw [hp] at hco
            exact absurd hco (by simp)
          | cons c t =>
            have ht : t.length ≤ n := by
              simp only [List.length_cons] at hcs
              omega
            rw [scan_inFile_consume aid path acc c t hcb hp]
            obtain ⟨pre, hpre⟩ := ih t ht (.inFile aid path (acc ++ [c]))
            exact ⟨c :: pre, by rw [List.cons_append, ← hpre]⟩
        · rw [scan_inFile_stop aid path acc cs hcb hp]
          exact ⟨[], by simp⟩
      · rw [scan_inFile_close aid path acc cs hcb]
        have hlen := isPrefixOf_length_le actCloseTag cs hcb
        have h9 : actCloseTag.length = 9 := by decide
        obtain ⟨pre2, h2⟩ := ih (cs.drop actCloseTag.length)
          (by simp only [List.length_drop]; omega) (.inArtifact aid)
        refine ⟨cs.take actCloseTag.length ++ pre2, ?_⟩
        conv_lhs => rw [← List.take_append_drop actCloseTag.length cs, h2]
        simp [List.append_assoc]
    | inOther aid payload acc =>
      rcases hcb : actCloseTag.isPrefixOf cs with _ | _
      · rcases hp : pendingLit actCloseTag cs with _ | _
        · cases cs with
          | nil =>
            have hco : pendingLit actCloseTag ([] : List Char) = true := by
              decide
            rw [hp] at hco
            exact absurd hco (by simp)
          | cons c t =>
            have ht : t.length ≤ n := by
              simp only [List.length_cons] at hcs
              omega
            rw [scan_inOther_consume aid payload acc c t hcb hp]
            obtain ⟨pre, hpre⟩ := ih t ht (.inOther aid payload (acc ++ [c]))
            exact ⟨c :: pre, by rw [List.cons_append, ← hpre]⟩
        · rw [scan_inOther_stop aid payload acc cs hcb hp]
          exact ⟨[], by simp⟩
      · rw [scan_inOther_close aid payload acc cs hcb]
        have hlen := isPrefixOf_length_le actCloseTag cs hcb
        have h9 : actCloseTag.length = 9 := by decide
        obtain ⟨pre2, h2⟩ := ih (cs.drop actCloseTag.length)
          (by simp only [List.length_drop]; omega) (.inArtifact aid)
        refine ⟨cs.take actCloseTag.length ++ pre2, ?_⟩
        conv_lhs => rw [← List.take_append_drop actCloseTag.length cs, h2]
        simp [List.append_assoc]

theorem scan_rest_suffix (m : PMode) (cs : List Char) :
    ∃ pre, cs = pre ++ (scan m cs).rest :=
  scan_rest_suffix_aux cs.length cs (le_refl _) m

/-- Modelled from the spec: the per-message parser state — how much of
the accumulated text has already been processed, plus the state-machine
position reached there. -/
structure PState where
  pos : Nat
  mode : PMode
deriving DecidableEq

def initState : PState := ⟨0, .outside⟩

/-- Modelled from the spec: one invocation of the streaming parser with
the full accumulated message text. It resumes scanning at the stored
position and returns the updated state and the newly emitted events. -/
def parse (st : PState) (full : List Char) : PState × List PEvent :=
  (⟨full.length - (scan st.mode (full.drop st.pos)).rest.length,
      (scan st.mode (full.drop st.pos)).mode⟩,
    (scan st.mode (full.drop st.pos)).events)

/-- Feed a sequence of accumulated-text snapshots to the parser in
order, concatenating the emitted events. -/
def feedAll : PState → List (List Char) → PState × List PEvent
  | st, [] => (st, [])
  | st, t :: ts =>
    ((feedAll (parse st t).1 ts).1,
      (parse st t).2 ++ (feedAll (parse st t).1 ts).2)

/-- The accumulated-text snapshots seen when a text arrives in
single-character chunks. -/
def prefixesOf (t : List Char) : List (List Char) :=
  (List.range t.length).map (fun i => t.take (i + 1))

theorem scan_drop_sub (m : PMode) (p : Nat) (t : List Char)
    (hpos : p ≤ t.length) :
    t.drop (t.length - (scan m (t.drop p)).rest.length) =
      (scan m (t.drop p)).rest := by
  obtain ⟨pre0, h0⟩ := scan_rest_suffix m (t.drop p)
  have ht : t = (t.take p ++ pre0) ++ (scan m (t.drop p)).rest := by
    conv_lhs => rw [← List.take_append_drop p t]
    conv_lhs => rw [h0]
    rw [List.append_assoc]
  have hlen : (t.take p ++ pre0).length =
      t.length - (scan m (t.drop p)).rest.length := by
    have hl := congrArg List.length ht
    simp only [List.length_append, List.length_take] at hl ⊢
    omega
  have hd := List.drop_left (t.take p ++ pre0) (scan m (t.drop p)).rest
  rw [← ht] at hd
  rw [← hlen]
  exact hd

/-- Calling the parser on an extension of already-seen text first
replays nothing: the new events are exactly the continuation's events,
and the state agrees with a single whole-text pass. -/
theorem parse_append_step (st : PState) (t d : List Char)
    (hpos : st.pos ≤ t.length) :
    (parse st (t ++ d)).2 =
        (parse st t).2 ++ (parse (parse st t).1 (t ++ d)).2 ∧
      (parse st (t ++ d)).1 = (parse (parse st t).1 (t ++ d)).1 := by
  have hd1 : (t ++ d).drop st.pos = t.drop st.pos ++ d :=
    drop_append_of_le st.pos t d hpos
  have hd2 : (t ++ d).drop
        (t.length - (scan st.mode (t.drop st.pos)).rest.length) =
      (scan st.mode (t.drop st.pos)).rest ++ d := by
    rw [drop_append_of_le _ t d (Nat.sub_le _ _),
      scan_drop_sub st.mode st.pos t hpos]
  have hsa := scan_append st.mode (t.drop st.pos) d
  refine ⟨?_, ?_⟩ <;> simp only [parse, hd1, hsa, hd2]

/-- Re-invoking the parser with the exact same text emits nothing new
and leaves the state unchanged. -/
theorem parse_same (st : PState) (t : List Char) (hpos : st.pos ≤ t.length) :
    (parse (parse st t).1 t).2 = [] ∧
      (parse (parse st t).1 t).1 = (parse st t).1 := by
  have h := parse_append_step st t [] hpos
  simp only [List.append_nil] at h
  obtain ⟨h1, h2⟩ := h
  constructor
  · have hl := congrArg List.length h1
    simp only [List.length_append] at hl
    exact List.eq_nil_of_length_eq_zero (by omega)
  · exact h2.symm

theorem prefixesOf_snoc (t : List Char) (c : Char) :
    prefixesOf (t ++ [c]) = prefixesOf t ++ [t ++ [c]] := by
  unfold prefixesOf
  have hlen : (t ++ [c]).length = t.length + 1 := by simp
  rw [hlen, List.range_succ, List.map_append]
  congr 1
  · apply List.map_congr_left
    intro i hi
    have hi' : i < t.length := List.mem_range.mp hi
    rw [List.take_append_eq_append_take, show i + 1 - t.length = 0 by omega]
    simp
  · simp only [List.map_cons, List.map_nil]
    rw [List.take_of_length_le (by simp)]

theorem feedAll_append (st : PState) (ts1 ts2 : List (List Char)) :
    feedAll st (ts1 ++ ts2) =
      ((feedAll (feedAll st ts1).1 ts2).1,
        (feedAll st ts1).2 ++ (feedAll (feedAll st ts1).1 ts2).2) := by
  induction ts1 generalizing st with
  | nil => simp [feedAll]
  | cons t ts ih =>
    simp only [List.cons_append, feedAll, List.append_eq]
    rw [ih (parse st t).1]
    simp [List.append_assoc]

/-- Feeding a text as single-character chunks produces the same final
state and the same event sequence as one whole-text invocation. -/
theorem feedAll_prefixes (t : List Char) :
    feedAll initState (prefixesOf t) = parse initState t := by
  induction t using List.reverseRecOn with
  | nil => simp [prefixesOf, feedAll, parse, scan_nil, initState]
  | append_singleton s c ih =>
    rw [prefixesOf_snoc, feedAll_append, ih]
    have hpos : initState.pos ≤ s.length := by simp [initState]
    obtain ⟨h2, h1⟩ := parse_append_step initState s [c] hpos
    simp only [feedAll, List.append_nil]
    have hpair : parse initState (s ++ [c]) =
        ((parse initState (s ++ [c])).1, (parse initState (s ++ [c])).2) :=
      rfl
    conv_rhs => rw [hpair]
    rw [h1, h2]

/-- C5: for every accumulated message text, the streaming parser is
idempotent and incremental — re-invoking it with the same text emits no
events and leaves the per-message state unchanged; invoking it with a
grown text emits exactly the events missing from the earlier pass, so
no open/close event already fired is ever re-emitted; and delivering
the text as single-character chunks yields the identical event sequence
(same events, same order) and final state as delivering it whole. -/
theorem c5_parser_idempotent_incremental (t d : List Char) :
    (parse (parse initState t).1 t).2 = [] ∧
      (parse (parse initState t).1 t).1 = (parse initState t).1 ∧
      (parse initState (t ++ d)).2 =
        (parse initState t).2 ++ (parse (parse initState t).1 (t ++ d)).2 ∧
      feedAll initState (prefixesOf t) = parse initState t := by
  have hpos : initState.pos ≤ t.length := by simp [initState]
  obtain ⟨hsame1, hsame2⟩ := parse_same initState t hpos
  obtain ⟨hgrow, _⟩ := parse_append_step initState t d hpos
  exact ⟨hsame1, hsame2, hgrow, feedAll_prefixes t⟩

end BoltDiy
